import Mathlib

/-!
Verification development for a small integer-language interpreter
(`parser.c`): tokenizer, symbol table, recursive-descent parser that
evaluates while parsing, sticky error flag that suppresses side effects,
and a driver mapping error state to an exit code.

The embedding follows the C source.  Machine `int` values are modelled as
unbounded `Int` (overflow is undefined behaviour in the source and no
property here depends on wrap-around); `/` on `int` is `Int.tdiv`, which
truncates toward zero exactly as C99 division does.  The recursive-descent
functions take a fuel argument that decreases on every call; a theorem
below shows that fuel `8 + 4 * n` always suffices for a token sequence
with `n + 1` tokens ending in the end-of-input token, so the fuel is a
definitional device only.
-/

set_option maxHeartbeats 1000000

/-- Token categories of the tokenizer (enum `TokenType` in the source). -/
inductive TokenType where
  | TOK_INT
  | TOK_PRINT
  | TOK_IDENTIFIER
  | TOK_INTEGER
  | TOK_ASSIGN
  | TOK_PLUS
  | TOK_MINUS
  | TOK_STAR
  | TOK_SLASH
  | TOK_LPAREN
  | TOK_RPAREN
  | TOK_SEMICOLON
  | TOK_EOF
  | TOK_UNKNOWN
deriving DecidableEq, Repr

open TokenType

/-- Human-readable token-type names used inside diagnostics
(`token_type_name` in the source). -/
def token_type_name : TokenType → String
  | TOK_INT        => "keyword 'int'"
  | TOK_PRINT      => "keyword 'print'"
  | TOK_IDENTIFIER => "identifier"
  | TOK_INTEGER    => "integer literal"
  | TOK_ASSIGN     => "'='"
  | TOK_PLUS       => "'+'"
  | TOK_MINUS      => "'-'"
  | TOK_STAR       => "'*'"
  | TOK_SLASH      => "'/'"
  | TOK_LPAREN     => "'('"
  | TOK_RPAREN     => "')'"
  | TOK_SEMICOLON  => "';'"
  | TOK_EOF        => "end of file"
  | TOK_UNKNOWN    => "unknown token"

/-- A token (struct `Token`): kind, lexeme text (truncated to 255 bytes as
in the source), numeric value for integer literals, and 1-based position. -/
structure Token where
  type      : TokenType
  text      : String
  int_value : Int
  line      : Nat
  col       : Nat
deriving DecidableEq, Repr

/-- A zero-initialised `Token`: the C token array is static, so entries
never written are all-zero, which makes their type `TOK_INT` (enum 0)
and their text empty. -/
def zeroTok : Token := ⟨TOK_INT, "", 0, 0, 0⟩

/-- One diagnostic, one constructor per categorized `fprintf` of the
source, carrying exactly the data the corresponding format string prints. -/
inductive Diag where
  | lexBadCharAfterInt (line col : Nat) (c : Char)
  | lexUnexpectedChar  (line col : Nat) (c : Char)
  | tooManyTokens
  | semanticRedeclared (line : Nat) (name : String)
  | tooManyVariables
  | synExpected        (line col : Nat) (expected found : TokenType) (text : String)
  | semanticUndeclared (line col : Nat) (name : String)
  | runtimeDivZero     (line col : Nat)
  | synExpectedExpr    (line col : Nat) (found : TokenType) (text : String)
  | synBadStmtStart    (line col : Nat) (found : TokenType) (text : String)
deriving DecidableEq, Repr

/-- Exact text each diagnostic writes to standard error (one line each),
following the format strings of the source.  Each categorized message is
written as category, position bracket, then message text, mirroring the
`%s Error [line %d, col %d]: ...` structure of the format strings; the
redeclaration message has no column and the capacity messages have no
category or position, exactly as in the source. -/
def Diag.render : Diag → String
  | .lexBadCharAfterInt line col c =>
      "Lexical" ++ " Error [line " ++ toString line ++ ", col " ++ toString col ++
      "]: " ++ ("invalid token '" ++ c.toString ++ "' after integer literal")
  | .lexUnexpectedChar line col c =>
      "Lexical" ++ " Error [line " ++ toString line ++ ", col " ++ toString col ++
      "]: " ++ ("unexpected character '" ++ c.toString ++ "'")
  | .tooManyTokens =>
      "Error: too many tokens (max 4096)"
  | .semanticRedeclared line name =>
      "Semantic Error [line " ++ toString line ++ "]: variable '" ++ name ++
      "' is already declared"
  | .tooManyVariables =>
      "Error: too many variables (max 256)"
  | .synExpected line col expected found text =>
      "Syntax" ++ " Error [line " ++ toString line ++ ", col " ++ toString col ++
      "]: " ++ ("expected " ++ token_type_name expected ++ " but found " ++
        token_type_name found ++ " ('" ++ text ++ "')")
  | .semanticUndeclared line col name =>
      "Semantic" ++ " Error [line " ++ toString line ++ ", col " ++ toString col ++
      "]: " ++ ("undeclared variable '" ++ name ++ "'")
  | .runtimeDivZero line col =>
      "Runtime" ++ " Error [line " ++ toString line ++ ", col " ++ toString col ++
      "]: " ++ "division by zero"
  | .synExpectedExpr line col found text =>
      "Syntax" ++ " Error [line " ++ toString line ++ ", col " ++ toString col ++
      "]: " ++ ("expected expression but found " ++ token_type_name found ++
        " ('" ++ text ++ "')")
  | .synBadStmtStart line col found text =>
      "Syntax" ++ " Error [line " ++ toString line ++ ", col " ++ toString col ++
      "]: " ++ ("expected 'int' or 'print' at start of statement but found " ++
        token_type_name found ++ " ('" ++ text ++ "')")

/-- The error category named by the first word of the diagnostic's text,
or `none` for the two capacity messages, whose text starts with a bare
`Error:` and carries no category or position. -/
def Diag.category : Diag → Option String
  | .lexBadCharAfterInt .. => some "Lexical"
  | .lexUnexpectedChar ..  => some "Lexical"
  | .tooManyTokens         => none
  | .semanticRedeclared .. => some "Semantic"
  | .tooManyVariables      => none
  | .synExpected ..        => some "Syntax"
  | .semanticUndeclared .. => some "Semantic"
  | .runtimeDivZero ..     => some "Runtime"
  | .synExpectedExpr ..    => some "Syntax"
  | .synBadStmtStart ..    => some "Syntax"

/-- The diagnostic shape claimed by the specification:
`<Category> Error [line L, col C]: <message>` with the category one of
the four fixed words. -/
def matchesDiagForm (s : String) : Prop :=
  ∃ (cat : String) (L C : Nat) (msg : String),
    (cat = "Lexical" ∨ cat = "Syntax" ∨ cat = "Semantic" ∨ cat = "Runtime") ∧
    s = cat ++ " Error [line " ++ toString L ++ ", col " ++ toString C ++ "]: " ++ msg

/-- First character of an identifier: letter or underscore
(`isalpha(c) || c == '_'` in the default C locale). -/
def isIdentStart (c : Char) : Bool := c.isAlpha || c == '_'

/-- Later character of an identifier: letter, digit or underscore. -/
def isIdentChar (c : Char) : Bool := c.isAlphanum || c == '_'

/-- Decimal value of a digit string, as `atoi` computes it on the
(truncated) lexeme. -/
def digitsVal (cs : List Char) : Nat :=
  cs.foldl (fun a c => a * 10 + (c.toNat - 48)) 0

/-- Worker of the tokenizer (`tokenise` in the source): one left-to-right
scan over the remaining characters, carrying the 1-based line and column
and the tokens read so far.  A lexical error or the 4096-token capacity
check aborts the scan; on success exactly one end-of-input token is
appended.  The fuel argument only makes the recursion structural: every
step consumes at least one character, so fuel equal to the number of
remaining characters never runs out (`tokAux_isSome` below), and `none`
is returned only on fuel exhaustion.  `tokStep` is the body of the scan
for one non-empty step, abstracted over the recursive call. -/
def tokStep (recur : List Char → Nat → Nat → List Token → Option (Except Diag (List Token)))
    (c : Char) (cs : List Char) (line col : Nat) (acc : List Token) :
    Option (Except Diag (List Token)) :=
  if c = ' ' ∨ c = '\t' ∨ c = '\r' then
    recur cs line (col + 1) acc
  else if c = '\n' then
    recur cs (line + 1) 1 acc
  else if c = '/' ∧ cs.head? = some '/' then
    recur (cs.dropWhile (fun d => d ≠ '\n')) line col acc
  else if isIdentStart c then
    let seg := c :: cs.takeWhile isIdentChar
    let rest := cs.dropWhile isIdentChar
    let text := (seg.take 255).asString
    let ty := if text = "int" then TOK_INT
              else if text = "print" then TOK_PRINT
              else TOK_IDENTIFIER
    if 4096 ≤ acc.length then some (.error .tooManyTokens)
    else recur rest line (col + seg.length) (acc ++ [⟨ty, text, 0, line, col⟩])
  else if c.isDigit then
    let seg := c :: cs.takeWhile Char.isDigit
    let rest := cs.dropWhile Char.isDigit
    match rest.head? with
    | some d =>
      if d.isAlpha ∨ d = '_' then some (.error (.lexBadCharAfterInt line col d))
      else
        if 4096 ≤ acc.length then some (.error .tooManyTokens)
        else
          recur rest line (col + seg.length)
            (acc ++ [⟨TOK_INTEGER, (seg.take 255).asString,
                      Int.ofNat (digitsVal (seg.take 255)), line, col⟩])
    | none =>
        if 4096 ≤ acc.length then some (.error .tooManyTokens)
        else
          recur rest line (col + seg.length)
            (acc ++ [⟨TOK_INTEGER, (seg.take 255).asString,
                      Int.ofNat (digitsVal (seg.take 255)), line, col⟩])
  else
    match (if c = '=' then some TOK_ASSIGN
           else if c = '+' then some TOK_PLUS
           else if c = '-' then some TOK_MINUS
           else if c = '*' then some TOK_STAR
           else if c = '/' then some TOK_SLASH
           else if c = '(' then some TOK_LPAREN
           else if c = ')' then some TOK_RPAREN
           else if c = ';' then some TOK_SEMICOLON
           else none) with
    | some ty =>
        if 4096 ≤ acc.length then some (.error .tooManyTokens)
        else recur cs line (col + 1) (acc ++ [⟨ty, c.toString, 0, line, col⟩])
    | none => some (.error (.lexUnexpectedChar line col c))

/-- Fuelled driver of the scan: the end of the source yields the single
end-of-input token; otherwise one `tokStep` is taken per unit of fuel. -/
def tokAux : Nat → List Char → Nat → Nat → List Token → Option (Except Diag (List Token))
  | _, [], line, col, acc =>
      some (.ok (acc ++ [⟨TOK_EOF, "EOF", 0, line, col⟩]))
  | 0, _ :: _, _, _, _ => none
  | fuel + 1, c :: cs, line, col, acc => tokStep (tokAux fuel) c cs line col acc

/-- `tokenise` of the source on a character list.  The fuel
`src.length` always suffices because every scanning step consumes at
least one character (`tokAux_isSome` below), so the fallback arm of the
match is dead code. -/
def tokenise (src : List Char) : Except Diag (List Token) :=
  match tokAux src.length src 1 1 [] with
  | some r => r
  | none => .error .tooManyTokens

/-- A symbol-table entry (struct `Variable`). -/
structure Variable where
  name     : String
  value    : Int
  declared : Bool
deriving DecidableEq, Repr

/-- `sym_lookup`: first entry with the given name, scanning in insertion
order. -/
def sym_lookup : List Variable → String → Option Variable
  | [], _ => none
  | v :: rest, name => if v.name = name then some v else sym_lookup rest name

/-- The whole interpreter state of the source: the token array with the
cursor `pos`, the sticky `had_error` flag, the symbol table, the values
printed so far (in order) and the diagnostics emitted so far (in order). -/
structure PState where
  toks     : List Token
  pos      : Nat
  hadError : Bool
  syms     : List Variable
  output   : List Int
  diags    : List Diag
deriving DecidableEq, Repr

/-- Token at an index of the token array; out-of-range reads yield the
zero-initialised token exactly as the static C array would. -/
def tokAt (ts : List Token) (p : Nat) : Token := ts.getD p zeroTok

/-- `current_token`: the token under the cursor, without consuming it. -/
def current_token (s : PState) : Token := tokAt s.toks s.pos

/-- `advance`: consume and return the current token; the cursor does not
move past an end-of-input token. -/
def advance (s : PState) : Token × PState :=
  let t := current_token s
  if t.type = TOK_EOF then (t, s) else (t, { s with pos := s.pos + 1 })

/-- Append a diagnostic and set the sticky error flag (the combination
every recoverable error path of the parser performs). -/
def emit (d : Diag) (s : PState) : PState :=
  { s with diags := s.diags ++ [d], hadError := true }

/-- `expect`: consume the current token if it has the wanted type; on a
mismatch report a syntax error, set the error flag, and return the
mismatched token without consuming it. -/
def expect (ty : TokenType) (s : PState) : Token × PState :=
  let t := current_token s
  if t.type = ty then advance s
  else (t, emit (.synExpected t.line t.col ty t.type t.text) s)

/-- `sym_declare`: fail (reporting the redeclaring line, with no column)
if the name is already present, fail on the 256-variable capacity limit,
else append a fresh entry with value `0`.  The caller stores the value
and sets `had_error` on failure. -/
def sym_declare (name : String) (line : Nat) (s : PState) :
    Option Variable × PState :=
  match sym_lookup s.syms name with
  | some _ => (none, { s with diags := s.diags ++ [.semanticRedeclared line name] })
  | none =>
    if 256 ≤ s.syms.length then
      (none, { s with diags := s.diags ++ [.tooManyVariables] })
    else
      let v : Variable := ⟨name, 0, true⟩
      (some v, { s with syms := s.syms ++ [v] })

/-- Semantic action at the end of `parse_declaration`: only executed when
no error has occurred anywhere in the run; stores the computed value into
the entry `sym_declare` created (modelled by rewriting the appended
entry), or sets the error flag when `sym_declare` failed. -/
def decl_action (id : Token) (value : Int) (s : PState) : PState :=
  if s.hadError = false then
    match sym_declare id.text id.line s with
    | (some v, s1) => { s1 with syms := s1.syms.dropLast ++ [{ v with value := value }] }
    | (none, s1) => { s1 with hadError := true }
  else s

mutual

/-- `parse_factor`: integer literal, identifier looked up in the symbol
table (undeclared is a semantic error evaluating to 0), parenthesised
expression, or an error-recovery path that consumes the offending token
(unless it is end of input) and evaluates to 0. -/
def parse_factor : Nat → PState → Option (Int × PState)
  | 0, _ => none
  | fuel + 1, s =>
    let t := current_token s
    if t.type = TOK_INTEGER then
      some (t.int_value, (advance s).2)
    else if t.type = TOK_IDENTIFIER then
      let s1 := (advance s).2
      match sym_lookup s1.syms t.text with
      | none => some (0, emit (.semanticUndeclared t.line t.col t.text) s1)
      | some v => some (v.value, s1)
    else if t.type = TOK_LPAREN then
      match parse_expr fuel (advance s).2 with
      | none => none
      | some (val, s1) => some (val, (expect TOK_RPAREN s1).2)
    else
      some (0, (advance (emit (.synExpectedExpr t.line t.col t.type t.text) s)).2)

/-- `parse_term`: a factor followed by the `*`/`/` loop. -/
def parse_term : Nat → PState → Option (Int × PState)
  | 0, _ => none
  | fuel + 1, s =>
    match parse_factor fuel s with
    | none => none
    | some (left, s1) => parse_term_loop fuel left s1

/-- The `while (check('*') || check('/'))` loop of `parse_term`: division
whose right operand is 0 is a runtime error reported at the operator's
position, the result of that operation becomes 0, and the loop
continues. -/
def parse_term_loop : Nat → Int → PState → Option (Int × PState)
  | 0, _, _ => none
  | fuel + 1, left, s =>
    let t := current_token s
    if t.type = TOK_STAR ∨ t.type = TOK_SLASH then
      let op := (advance s).1
      let s1 := (advance s).2
      match parse_factor fuel s1 with
      | none => none
      | some (right, s2) =>
        if op.type = TOK_STAR then
          parse_term_loop fuel (left * right) s2
        else if right = 0 then
          parse_term_loop fuel 0 (emit (.runtimeDivZero op.line op.col) s2)
        else
          parse_term_loop fuel (Int.tdiv left right) s2
    else
      some (left, s)

/-- `parse_expr`: a term followed by the `+`/`-` loop. -/
def parse_expr : Nat → PState → Option (Int × PState)
  | 0, _ => none
  | fuel + 1, s =>
    match parse_term fuel s with
    | none => none
    | some (left, s1) => parse_expr_loop fuel left s1

/-- The `while (check('+') || check('-'))` loop of `parse_expr`:
left-associative addition and subtraction. -/
def parse_expr_loop : Nat → Int → PState → Option (Int × PState)
  | 0, _, _ => none
  | fuel + 1, left, s =>
    let t := current_token s
    if t.type = TOK_PLUS ∨ t.type = TOK_MINUS then
      let s1 := (advance s).2
      match parse_term fuel s1 with
      | none => none
      | some (right, s2) =>
        if t.type = TOK_PLUS then parse_expr_loop fuel (left + right) s2
        else parse_expr_loop fuel (left - right) s2
    else
      some (left, s)

/-- `parse_declaration`: `"int" IDENTIFIER "=" Expr ";"`, then the
semantic action guarded by the sticky error flag. -/
def parse_declaration : Nat → PState → Option PState
  | 0, _ => none
  | fuel + 1, s =>
    let s1 := (expect TOK_INT s).2
    let id := (expect TOK_IDENTIFIER s1).1
    let s2 := (expect TOK_IDENTIFIER s1).2
    let s3 := (expect TOK_ASSIGN s2).2
    match parse_expr fuel s3 with
    | none => none
    | some (value, s4) =>
      let s5 := (expect TOK_SEMICOLON s4).2
      some (decl_action id value s5)

/-- `parse_print`: `"print" "(" Expr ")" ";"`; the value is written to
standard output only if no error has occurred anywhere in the run. -/
def parse_print : Nat → PState → Option PState
  | 0, _ => none
  | fuel + 1, s =>
    let s1 := (expect TOK_PRINT s).2
    let s2 := (expect TOK_LPAREN s1).2
    match parse_expr fuel s2 with
    | none => none
    | some (value, s3) =>
      let s4 := (expect TOK_RPAREN s3).2
      let s5 := (expect TOK_SEMICOLON s4).2
      some (if s5.hadError then s5 else { s5 with output := s5.output ++ [value] })

/-- `parse_stmt`: dispatch on the current token; any other leading token
is a syntax error and that token is consumed (unless it is end of input)
for error recovery. -/
def parse_stmt : Nat → PState → Option PState
  | 0, _ => none
  | fuel + 1, s =>
    let t := current_token s
    if t.type = TOK_INT then parse_declaration fuel s
    else if t.type = TOK_PRINT then parse_print fuel s
    else some ((advance (emit (.synBadStmtStart t.line t.col t.type t.text) s)).2)

/-- The `while (!check(TOK_EOF))` statement loop of `parse_program`. -/
def parse_stmt_loop : Nat → PState → Option PState
  | 0, _ => none
  | fuel + 1, s =>
    if (current_token s).type = TOK_EOF then some s
    else
      match parse_stmt fuel s with
      | none => none
      | some s1 => parse_stmt_loop fuel s1

/-- `parse_program`: the statement loop, then one explicit expectation of
the end-of-input token. -/
def parse_program : Nat → PState → Option PState
  | 0, _ => none
  | fuel + 1, s =>
    match parse_stmt_loop fuel s with
    | none => none
    | some s1 => some ((expect TOK_EOF s1).2)

end

/-- Fuel that always suffices for `parse_program` (proved below). -/
def progFuel (ts : List Token) : Nat := 8 + 4 * ts.length

/-- The state in which `main` starts the parser: cursor 0, no error,
empty symbol table. -/
def initState (ts : List Token) : PState := ⟨ts, 0, false, [], [], []⟩

/-- Run the parser/interpreter over a token sequence as `main` does. -/
def runTokens (ts : List Token) : Option PState :=
  parse_program (progFuel ts) (initState ts)

/-- Observable result of one process run: exit status, the values printed
to standard output (in order; each is printed as its decimal
representation followed by a newline), and the diagnostics written to
standard error (in order). -/
structure RunResult where
  exitCode : Nat
  output   : List Int
  diags    : List Diag
deriving DecidableEq, Repr

/-- The pipeline of `main` after the file has been read: tokenise, then
parse/execute; exit 1 on a lexical error or when `had_error` is set,
else exit 0.  `none` would mean fuel exhaustion, which never happens. -/
def interpretChars (src : List Char) : Option RunResult :=
  match tokenise src with
  | .error d => some ⟨1, [], [d]⟩
  | .ok ts =>
    (runTokens ts).map fun s => ⟨if s.hadError then 1 else 0, s.output, s.diags⟩

/-- `interpretChars` on a string. -/
def interpret (src : String) : Option RunResult := interpretChars src.data

/-- The whole of `main`: a missing command-line argument or an unreadable
file exits 1 (their messages are usage/driver text, not categorized
diagnostics); otherwise the file's contents are interpreted. -/
def mainRun (argPresent : Bool) (file : Option String) : Option RunResult :=
  if argPresent then
    match file with
    | some src => interpret src
    | none => some ⟨1, [], []⟩
  else some ⟨1, [], []⟩

/-- Stdout as actual lines: the decimal rendering of each printed value. -/
def stdoutLines (r : RunResult) : List String := r.output.map toString

/-- Last valid index of the token array. -/
def lastIdx (ts : List Token) : Nat := ts.length - 1

/-- The token sequence is nonempty and its final token is end-of-input:
the shape `tokenise` always produces. -/
def EndsWithEOF (ts : List Token) : Prop :=
  ts ≠ [] ∧ (tokAt ts (lastIdx ts)).type = TOK_EOF

namespace SpecModel

/-!
Specification-side model, written from the specification's words rather
than from the source, for the refinement claim: expressions are abstract
syntax trees built by the grammar

  Expr -> Term (("+" | "-") Term)*   (left-associative)
  Term -> Factor (("*" | "/") Factor)*  (left-associative)
  Factor -> IntegerLiteral | Identifier | "(" Expr ")"

and a program is the list of its statements, executed in order: a
declaration binds a fresh name to its expression's value (declare-once),
a print statement emits its expression's value.  Evaluation uses
truncating integer division and fails (for valid-program purposes) on an
undeclared identifier, a zero divisor, or a duplicate declaration. -/

/-- Abstract syntax of expressions. -/
inductive Expr where
  | lit (n : Int)
  | var (x : String)
  | add (a b : Expr)
  | sub (a b : Expr)
  | mul (a b : Expr)
  | div (a b : Expr)
deriving DecidableEq, Repr

/-- Abstract syntax of statements. -/
inductive Stmt where
  | decl (x : String) (e : Expr)
  | print (e : Expr)
deriving DecidableEq, Repr

/-- Name lookup in a symbol table behaving as a map keyed by name. -/
def lookup : List Variable → String → Option Int
  | [], _ => none
  | v :: rest, x => if v.name = x then some v.value else lookup rest x

/-- Standard evaluation of an expression over an environment; `none` on
an undeclared identifier or a division by zero. -/
def eval (env : List Variable) : Expr → Option Int
  | .lit n => some n
  | .var x => lookup env x
  | .add a b => do pure ((← eval env a) + (← eval env b))
  | .sub a b => do pure ((← eval env a) - (← eval env b))
  | .mul a b => do pure ((← eval env a) * (← eval env b))
  | .div a b => do
      let va ← eval env a
      let vb ← eval env b
      if vb = 0 then none else pure (Int.tdiv va vb)

mutual

/-- Factor of the grammar, read from the token sequence at a position. -/
def pFactor (ts : List Token) : Nat → Nat → Option (Expr × Nat)
  | 0, _ => none
  | fuel + 1, p =>
    let t := tokAt ts p
    if t.type = TOK_INTEGER then some (.lit t.int_value, p + 1)
    else if t.type = TOK_IDENTIFIER then some (.var t.text, p + 1)
    else if t.type = TOK_LPAREN then
      match pExpr ts fuel (p + 1) with
      | none => none
      | some (e, p1) =>
        if (tokAt ts p1).type = TOK_RPAREN then some (e, p1 + 1) else none
    else none

/-- Term of the grammar. -/
def pTerm (ts : List Token) : Nat → Nat → Option (Expr × Nat)
  | 0, _ => none
  | fuel + 1, p =>
    match pFactor ts fuel p with
    | none => none
    | some (e, p1) => pTermLoop ts fuel e p1

/-- Left-associative `*`/`/` chain of a term. -/
def pTermLoop (ts : List Token) : Nat → Expr → Nat → Option (Expr × Nat)
  | 0, _, _ => none
  | fuel + 1, acc, p =>
    let t := tokAt ts p
    if t.type = TOK_STAR ∨ t.type = TOK_SLASH then
      match pFactor ts fuel (p + 1) with
      | none => none
      | some (e, p1) =>
        if t.type = TOK_STAR then pTermLoop ts fuel (.mul acc e) p1
        else pTermLoop ts fuel (.div acc e) p1
    else some (acc, p)

/-- Expression of the grammar. -/
def pExpr (ts : List Token) : Nat → Nat → Option (Expr × Nat)
  | 0, _ => none
  | fuel + 1, p =>
    match pTerm ts fuel p with
    | none => none
    | some (e, p1) => pExprLoop ts fuel e p1

/-- Left-associative `+`/`-` chain of an expression. -/
def pExprLoop (ts : List Token) : Nat → Expr → Nat → Option (Expr × Nat)
  | 0, _, _ => none
  | fuel + 1, acc, p =>
    let t := tokAt ts p
    if t.type = TOK_PLUS ∨ t.type = TOK_MINUS then
      match pTerm ts fuel (p + 1) with
      | none => none
      | some (e, p1) =>
        if t.type = TOK_PLUS then pExprLoop ts fuel (.add acc e) p1
        else pExprLoop ts fuel (.sub acc e) p1
    else some (acc, p)

/-- Declaration statement of the grammar:
`"int" IDENTIFIER "=" Expr ";"`. -/
def pDecl (ts : List Token) : Nat → Nat → Option (Stmt × Nat)
  | 0, _ => none
  | fuel + 1, p =>
    let id := tokAt ts (p + 1)
    if (tokAt ts p).type = TOK_INT ∧ id.type = TOK_IDENTIFIER ∧
       (tokAt ts (p + 2)).type = TOK_ASSIGN then
      match pExpr ts fuel (p + 3) with
      | none => none
      | some (e, p1) =>
        if (tokAt ts p1).type = TOK_SEMICOLON then some (.decl id.text e, p1 + 1)
        else none
    else none

/-- Print statement of the grammar: `"print" "(" Expr ")" ";"`. -/
def pPrint (ts : List Token) : Nat → Nat → Option (Stmt × Nat)
  | 0, _ => none
  | fuel + 1, p =>
    if (tokAt ts p).type = TOK_PRINT ∧ (tokAt ts (p + 1)).type = TOK_LPAREN then
      match pExpr ts fuel (p + 2) with
      | none => none
      | some (e, p1) =>
        if (tokAt ts p1).type = TOK_RPAREN ∧
           (tokAt ts (p1 + 1)).type = TOK_SEMICOLON then
          some (.print e, p1 + 2)
        else none
    else none

/-- Statement of the grammar: a declaration or a print statement,
selected by the leading token. -/
def pStmt (ts : List Token) : Nat → Nat → Option (Stmt × Nat)
  | 0, _ => none
  | fuel + 1, p =>
    let t := tokAt ts p
    if t.type = TOK_INT then pDecl ts fuel p
    else if t.type = TOK_PRINT then pPrint ts fuel p
    else none

/-- Statement list of the grammar, up to the end-of-input token. -/
def pStmtList (ts : List Token) : Nat → Nat → Option (List Stmt × Nat)
  | 0, _ => none
  | fuel + 1, p =>
    if (tokAt ts p).type = TOK_EOF then some ([], p)
    else
      match pStmt ts fuel p with
      | none => none
      | some (st, p1) =>
        match pStmtList ts fuel p1 with
        | none => none
        | some (sts, p2) => some (st :: sts, p2)

end

/-- Whole-program parse according to the grammar. -/
def parseProgram (ts : List Token) : Nat → Option (List Stmt)
  | 0 => none
  | fuel + 1 =>
    match pStmtList ts fuel 0 with
    | none => none
    | some (prog, _) => some prog

/-- Execution of a statement list: declarations bind fresh names once,
print statements emit values in source order.  `none` marks a program
that is not valid (duplicate declaration, undeclared identifier or
division by zero). -/
def exec : List Variable → List Stmt → Option (List Variable × List Int)
  | env, [] => some (env, [])
  | env, .decl x e :: rest =>
    match lookup env x with
    | some _ => none
    | none =>
      match eval env e with
      | none => none
      | some v => exec (env ++ [⟨x, v, true⟩]) rest
  | env, .print e :: rest =>
    match eval env e with
    | none => none
    | some v =>
      match exec env rest with
      | none => none
      | some (env1, outs) => some (env1, v :: outs)

end SpecModel

/-- Token sequence of the source text `print(7);`, used as a concrete
test vector. -/
def egTokens : List Token :=
  [⟨TOK_PRINT, "print", 0, 1, 1⟩, ⟨TOK_LPAREN, "(", 0, 1, 6⟩,
   ⟨TOK_INTEGER, "7", 7, 1, 7⟩, ⟨TOK_RPAREN, ")", 0, 1, 8⟩,
   ⟨TOK_SEMICOLON, ";", 0, 1, 9⟩, ⟨TOK_EOF, "EOF", 0, 1, 10⟩]

/-- Final interpreter state after running `print(7);`. -/
def egFinal : PState := ⟨egTokens, 5, false, [], [7], []⟩

/-- Token sequence of the source text `print(4 / 0);`, used as a
concrete test vector. -/
def egDivTokens : List Token :=
  [⟨TOK_PRINT, "print", 0, 1, 1⟩, ⟨TOK_LPAREN, "(", 0, 1, 6⟩,
   ⟨TOK_INTEGER, "4", 4, 1, 7⟩, ⟨TOK_SLASH, "/", 0, 1, 9⟩,
   ⟨TOK_INTEGER, "0", 0, 1, 11⟩, ⟨TOK_RPAREN, ")", 0, 1, 12⟩,
   ⟨TOK_SEMICOLON, ";", 0, 1, 13⟩, ⟨TOK_EOF, "EOF", 0, 1, 14⟩]

/-- Token sequence of the source text `print(x);`, used as a concrete
test vector. -/
def egVarTokens : List Token :=
  [⟨TOK_PRINT, "print", 0, 1, 1⟩, ⟨TOK_LPAREN, "(", 0, 1, 6⟩,
   ⟨TOK_IDENTIFIER, "x", 0, 1, 7⟩, ⟨TOK_RPAREN, ")", 0, 1, 8⟩,
   ⟨TOK_SEMICOLON, ";", 0, 1, 9⟩, ⟨TOK_EOF, "EOF", 0, 1, 10⟩]

/-- Facts preserved by every parser operation: the token array is fixed,
the cursor only moves forward and stays inside the array (for an
EOF-terminated array), the error flag is sticky, and an error-free result
means the run was error-free throughout and emitted no diagnostics. -/
structure StepInv (s s' : PState) : Prop where
  toks_eq : s'.toks = s.toks
  pos_le : s.pos ≤ s'.pos
  sticky : s.hadError = true → s'.hadError = true
  clean : s'.hadError = false → s.hadError = false ∧ s'.diags = s.diags
  bound : EndsWithEOF s.toks → s.pos ≤ lastIdx s.toks → s'.pos ≤ lastIdx s.toks

/-- Additional facts for the expression level, which never touches the
symbol table or the output. -/
structure ExprInv (s s' : PState) extends StepInv s s' : Prop where
  syms_eq : s'.syms = s.syms
  output_eq : s'.output = s.output

/-- Additional facts for the statement level: once the error flag is set,
neither the symbol table nor the output changes. -/
structure StmtInv (s s' : PState) extends StepInv s s' : Prop where
  suppress : s.hadError = true → s'.syms = s.syms ∧ s'.output = s.output

theorem StepInv.step_refl (s : PState) : StepInv s s :=
  ⟨rfl, le_rfl, id, fun h => ⟨h, rfl⟩, fun _ h => h⟩

theorem StepInv.step_trans {s1 s2 s3 : PState} (a : StepInv s1 s2) (b : StepInv s2 s3) :
    StepInv s1 s3 := by
  refine ⟨b.toks_eq.trans a.toks_eq, a.pos_le.trans b.pos_le,
    fun h => b.sticky (a.sticky h), fun h => ?_, fun he hp => ?_⟩
  · obtain ⟨h2, hd2⟩ := b.clean h
    obtain ⟨h1, hd1⟩ := a.clean h2
    exact ⟨h1, hd2.trans hd1⟩
  · have he2 : EndsWithEOF s2.toks := a.toks_eq ▸ he
    have hb := b.bound he2 (by rw [a.toks_eq]; exact a.bound he hp)
    rwa [a.toks_eq] at hb

theorem ExprInv.expr_refl (s : PState) : ExprInv s s := ⟨StepInv.step_refl s, rfl, rfl⟩

theorem ExprInv.expr_trans {s1 s2 s3 : PState} (a : ExprInv s1 s2) (b : ExprInv s2 s3) :
    ExprInv s1 s3 :=
  ⟨a.toStepInv.step_trans b.toStepInv, b.syms_eq.trans a.syms_eq,
   b.output_eq.trans a.output_eq⟩

theorem ExprInv.toStmtInv {s s' : PState} (a : ExprInv s s') : StmtInv s s' :=
  ⟨a.toStepInv, fun _ => ⟨a.syms_eq, a.output_eq⟩⟩

theorem StmtInv.stmt_refl (s : PState) : StmtInv s s := (ExprInv.expr_refl s).toStmtInv

theorem StmtInv.stmt_trans {s1 s2 s3 : PState} (a : StmtInv s1 s2) (b : StmtInv s2 s3) :
    StmtInv s1 s3 := by
  refine ⟨a.toStepInv.step_trans b.toStepInv, fun h => ?_⟩
  obtain ⟨hs1, ho1⟩ := a.suppress h
  obtain ⟨hs2, ho2⟩ := b.suppress (a.sticky h)
  exact ⟨hs2.trans hs1, ho2.trans ho1⟩

theorem ExprInv.trans_stmt {s1 s2 s3 : PState} (a : ExprInv s1 s2) (b : StmtInv s2 s3) :
    StmtInv s1 s3 := a.toStmtInv.stmt_trans b

theorem advance_fst (s : PState) : (advance s).1 = current_token s := by
  simp only [advance]; split <;> rfl

theorem advance_snd_eq (s : PState) :
    (advance s).2 =
      if (current_token s).type = TOK_EOF then s else { s with pos := s.pos + 1 } := by
  simp only [advance]; split <;> simp_all

theorem advance_syms (s : PState) : ((advance s).2).syms = s.syms := by
  rw [advance_snd_eq]; split <;> rfl

theorem advance_toks (s : PState) : ((advance s).2).toks = s.toks := by
  rw [advance_snd_eq]; split <;> rfl

theorem advance_hadError (s : PState) : ((advance s).2).hadError = s.hadError := by
  rw [advance_snd_eq]; split <;> rfl

theorem advance_diags (s : PState) : ((advance s).2).diags = s.diags := by
  rw [advance_snd_eq]; split <;> rfl

theorem advance_output (s : PState) : ((advance s).2).output = s.output := by
  rw [advance_snd_eq]; split <;> rfl

theorem advance_pos_of_ne (s : PState) (h : (current_token s).type ≠ TOK_EOF) :
    ((advance s).2).pos = s.pos + 1 := by
  rw [advance_snd_eq, if_neg h]

theorem advance_of_eof (s : PState) (h : (current_token s).type = TOK_EOF) :
    (advance s).2 = s := by
  rw [advance_snd_eq, if_pos h]

theorem advance_bound (s : PState) (he : EndsWithEOF s.toks)
    (hp : s.pos ≤ lastIdx s.toks) : ((advance s).2).pos ≤ lastIdx s.toks := by
  rw [advance_snd_eq]
  split
  · exact hp
  · rename_i hne
    rcases Nat.lt_or_ge s.pos (lastIdx s.toks) with h | h
    · exact h
    · exact absurd (show (current_token s).type = TOK_EOF by
        unfold current_token; rw [le_antisymm hp h]; exact he.2) hne

theorem advance_exprInv (s : PState) : ExprInv s (advance s).2 := by
  refine ⟨⟨advance_toks s, ?_, ?_, ?_, fun he hp => advance_bound s he hp⟩,
    advance_syms s, advance_output s⟩
  · rw [advance_snd_eq]; split
    · exact le_rfl
    · exact Nat.le_succ _
  · rw [advance_hadError]; exact id
  · rw [advance_hadError, advance_diags]; exact fun h => ⟨h, rfl⟩

theorem emit_exprInv (d : Diag) (s : PState) : ExprInv s (emit d s) := by
  refine ⟨⟨rfl, le_rfl, fun _ => rfl, fun h => by simp [emit] at h, fun _ h => h⟩, rfl, rfl⟩

theorem expect_eq (ty : TokenType) (s : PState) :
    expect ty s =
      if (current_token s).type = ty then advance s
      else (current_token s,
        emit (.synExpected (current_token s).line (current_token s).col ty
          (current_token s).type (current_token s).text) s) := by
  simp only [expect]

theorem expect_exprInv (ty : TokenType) (s : PState) : ExprInv s (expect ty s).2 := by
  rw [expect_eq]
  split
  · exact advance_exprInv s
  · exact emit_exprInv _ s

theorem expect_of_match (ty : TokenType) (s : PState)
    (h : (current_token s).type = ty) : expect ty s = advance s := by
  rw [expect_eq, if_pos h]

theorem expect_clean (ty : TokenType) (s : PState)
    (h : ((expect ty s).2).hadError = false) :
    (current_token s).type = ty ∧ (expect ty s).2 = (advance s).2 ∧
      (expect ty s).1 = current_token s := by
  rw [expect_eq] at h
  split at h
  · rename_i hty
    refine ⟨hty, by rw [expect_eq, if_pos hty], by rw [expect_eq, if_pos hty, advance_fst]⟩
  · simp [emit] at h

theorem decl_action_eq_of_redeclared (id : Token) (value : Int) (s : PState)
    (hE : s.hadError = false) (hL : (sym_lookup s.syms id.text).isSome) :
    decl_action id value s =
      { s with diags := s.diags ++ [.semanticRedeclared id.line id.text],
               hadError := true } := by
  unfold decl_action sym_declare
  rw [if_pos hE]
  obtain ⟨v, hv⟩ := Option.isSome_iff_exists.mp hL
  rw [hv]

theorem decl_action_eq_of_fresh (id : Token) (value : Int) (s : PState)
    (hE : s.hadError = false) (hL : sym_lookup s.syms id.text = none)
    (hC : s.syms.length < 256) :
    decl_action id value s = { s with syms := s.syms ++ [⟨id.text, value, true⟩] } := by
  unfold decl_action sym_declare
  rw [if_pos hE, hL]
  rw [if_neg (by omega)]
  simp

theorem decl_action_stmtInv (id : Token) (value : Int) (s : PState) :
    StmtInv s (decl_action id value s) := by
  by_cases hE : s.hadError = false
  · cases hL : sym_lookup s.syms id.text with
    | some v =>
      rw [decl_action_eq_of_redeclared id value s hE (by rw [hL]; rfl)]
      exact ⟨⟨rfl, le_rfl, (fun _ => rfl), (fun h => by simp at h), (fun _ h => h)⟩,
        (fun h => by rw [hE] at h; cases h)⟩
    | none =>
      by_cases hC : s.syms.length < 256
      · rw [decl_action_eq_of_fresh id value s hE hL hC]
        exact ⟨⟨rfl, le_rfl, (fun h => by rw [hE] at h; cases h), (fun _ => ⟨hE, rfl⟩),
          (fun _ h => h)⟩, (fun h => by rw [hE] at h; cases h)⟩
      · unfold decl_action sym_declare
        rw [if_pos hE, hL, if_pos (by omega)]
        exact ⟨⟨rfl, le_rfl, (fun _ => rfl), (fun h => by simp at h), (fun _ h => h)⟩,
          (fun h => by rw [hE] at h; cases h)⟩
  · unfold decl_action
    rw [if_neg hE]
    exact StmtInv.stmt_refl s

/-- Simultaneous invariants of all parser functions, by induction on the
fuel: expression parsing only moves the cursor, emits diagnostics and
sets the sticky flag; statement parsing additionally suppresses symbol
table and output changes after an error; the statement dispatcher
consumes at least one token whenever the current token is not
end-of-input; and the statement loop stops exactly at end-of-input. -/
theorem parse_invariants : ∀ fuel : Nat,
    (∀ s v s', parse_factor fuel s = some (v, s') → ExprInv s s') ∧
    (∀ left s v s', parse_term_loop fuel left s = some (v, s') → ExprInv s s') ∧
    (∀ s v s', parse_term fuel s = some (v, s') → ExprInv s s') ∧
    (∀ left s v s', parse_expr_loop fuel left s = some (v, s') → ExprInv s s') ∧
    (∀ s v s', parse_expr fuel s = some (v, s') → ExprInv s s') ∧
    (∀ s s', parse_declaration fuel s = some s' →
      StmtInv s s' ∧ ((current_token s).type = TOK_INT → s.pos < s'.pos)) ∧
    (∀ s s', parse_print fuel s = some s' →
      StmtInv s s' ∧ ((current_token s).type = TOK_PRINT → s.pos < s'.pos)) ∧
    (∀ s s', parse_stmt fuel s = some s' →
      StmtInv s s' ∧ ((current_token s).type ≠ TOK_EOF → s.pos < s'.pos)) ∧
    (∀ s s', parse_stmt_loop fuel s = some s' →
      StmtInv s s' ∧ (current_token s').type = TOK_EOF) ∧
    (∀ s s', parse_program fuel s = some s' →
      StmtInv s s' ∧ (current_token s').type = TOK_EOF) := by
  intro fuel
  induction fuel with
  | zero =>
    refine ⟨?_, ?_, ?_, ?_, ?_, ?_, ?_, ?_, ?_, ?_⟩ <;> intros <;>
      simp_all [parse_factor, parse_term_loop, parse_term, parse_expr_loop,
        parse_expr, parse_declaration, parse_print, parse_stmt,
        parse_stmt_loop, parse_program]
  | succ fuel ih =>
    obtain ⟨ihF, ihTL, ihT, ihEL, ihE, ihD, ihP, ihS, ihL, ihPr⟩ := ih
    refine ⟨?_, ?_, ?_, ?_, ?_, ?_, ?_, ?_, ?_, ?_⟩
    · -- parse_factor
      intro s v s' h
      simp only [parse_factor] at h
      split at h
      · simp only [Option.some.injEq, Prod.mk.injEq] at h
        obtain ⟨-, rfl⟩ := h
        exact advance_exprInv s
      · split at h
        · split at h
          · simp only [Option.some.injEq, Prod.mk.injEq] at h
            obtain ⟨-, rfl⟩ := h
            exact (advance_exprInv s).expr_trans (emit_exprInv _ _)
          · simp only [Option.some.injEq, Prod.mk.injEq] at h
            obtain ⟨-, rfl⟩ := h
            exact advance_exprInv s
        · split at h
          · split at h
            · cases h
            · rename_i val s1 heq
              simp only [Option.some.injEq, Prod.mk.injEq] at h
              obtain ⟨-, rfl⟩ := h
              exact ((advance_exprInv s).expr_trans (ihE _ _ _ heq)).expr_trans (expect_exprInv _ _)
          · simp only [Option.some.injEq, Prod.mk.injEq] at h
            obtain ⟨-, rfl⟩ := h
            exact (emit_exprInv _ _).expr_trans (advance_exprInv _)
    · -- parse_term_loop
      intro left s v s' h
      simp only [parse_term_loop] at h
      split at h
      · split at h
        · cases h
        · rename_i right s2 heq
          have inv1 : ExprInv s s2 := (advance_exprInv s).expr_trans (ihF _ _ _ heq)
          split at h
          · exact inv1.expr_trans (ihTL _ _ _ _ h)
          · split at h
            · exact (inv1.expr_trans (emit_exprInv _ _)).expr_trans (ihTL _ _ _ _ h)
            · exact inv1.expr_trans (ihTL _ _ _ _ h)
      · simp only [Option.some.injEq, Prod.mk.injEq] at h
        obtain ⟨-, rfl⟩ := h
        exact ExprInv.expr_refl s
    · -- parse_term
      intro s v s' h
      simp only [parse_term] at h
      split at h
      · cases h
      · rename_i left s1 heq
        exact (ihF _ _ _ heq).expr_trans (ihTL _ _ _ _ h)
    · -- parse_expr_loop
      intro left s v s' h
      simp only [parse_expr_loop] at h
      split at h
      · split at h
        · cases h
        · rename_i right s2 heq
          have inv1 : ExprInv s s2 := (advance_exprInv s).expr_trans (ihT _ _ _ heq)
          split at h
          · exact inv1.expr_trans (ihEL _ _ _ _ h)
          · exact inv1.expr_trans (ihEL _ _ _ _ h)
      · simp only [Option.some.injEq, Prod.mk.injEq] at h
        obtain ⟨-, rfl⟩ := h
        exact ExprInv.expr_refl s
    · -- parse_expr
      intro s v s' h
      simp only [parse_expr] at h
      split at h
      · cases h
      · rename_i left s1 heq
        exact (ihT _ _ _ heq).expr_trans (ihEL _ _ _ _ h)
    · -- parse_declaration
      intro s s' h
      simp only [parse_declaration] at h
      split at h
      · cases h
      · rename_i value s4 heq
        simp only [Option.some.injEq] at h
        subst h
        have e1 : ExprInv s (expect TOK_INT s).2 := expect_exprInv _ _
        have e2 : ExprInv (expect TOK_INT s).2 (expect TOK_IDENTIFIER (expect TOK_INT s).2).2 :=
          expect_exprInv _ _
        have e3 : ExprInv (expect TOK_IDENTIFIER (expect TOK_INT s).2).2
            (expect TOK_ASSIGN (expect TOK_IDENTIFIER (expect TOK_INT s).2).2).2 :=
          expect_exprInv _ _
        have e4 : ExprInv (expect TOK_ASSIGN (expect TOK_IDENTIFIER (expect TOK_INT s).2).2).2 s4 :=
          ihE _ _ _ heq
        have e5 : ExprInv s4 (expect TOK_SEMICOLON s4).2 := expect_exprInv _ _
        have chain : ExprInv s (expect TOK_SEMICOLON s4).2 :=
          (((e1.expr_trans e2).expr_trans e3).expr_trans e4).expr_trans e5
        refine ⟨chain.trans_stmt (decl_action_stmtInv _ _ _), ?_⟩
        intro hInt
        have hadv : expect TOK_INT s = advance s := expect_of_match _ _ hInt
        have hpos1 : ((expect TOK_INT s).2).pos = s.pos + 1 := by
          rw [hadv, advance_pos_of_ne]
          rw [hInt]
          simp
        have hle : ((expect TOK_INT s).2).pos ≤ ((expect TOK_SEMICOLON s4).2).pos :=
          ((((e2.expr_trans e3).expr_trans e4).expr_trans e5)).pos_le
        have hfin : ((expect TOK_SEMICOLON s4).2).pos ≤ (decl_action
            ((expect TOK_IDENTIFIER (expect TOK_INT s).2).1) value
            ((expect TOK_SEMICOLON s4).2)).pos :=
          (decl_action_stmtInv _ _ _).pos_le
        omega
    · -- parse_print
      intro s s' h
      simp only [parse_print] at h
      split at h
      · cases h
      · rename_i value s3 heq
        simp only [Option.some.injEq] at h
        subst h
        have e1 : ExprInv s (expect TOK_PRINT s).2 := expect_exprInv _ _
        have e2 : ExprInv (expect TOK_PRINT s).2 (expect TOK_LPAREN (expect TOK_PRINT s).2).2 :=
          expect_exprInv _ _
        have e3 : ExprInv (expect TOK_LPAREN (expect TOK_PRINT s).2).2 s3 := ihE _ _ _ heq
        have e4 : ExprInv s3 (expect TOK_RPAREN s3).2 := expect_exprInv _ _
        have e5 : ExprInv (expect TOK_RPAREN s3).2 (expect TOK_SEMICOLON (expect TOK_RPAREN s3).2).2 :=
          expect_exprInv _ _
        have chain : ExprInv s (expect TOK_SEMICOLON (expect TOK_RPAREN s3).2).2 :=
          (((e1.expr_trans e2).expr_trans e3).expr_trans e4).expr_trans e5
        have hpos : (current_token s).type = TOK_PRINT →
            s.pos < ((expect TOK_SEMICOLON (expect TOK_RPAREN s3).2).2).pos := by
          intro hPrint
          have hadv : expect TOK_PRINT s = advance s := expect_of_match _ _ hPrint
          have hpos1 : ((expect TOK_PRINT s).2).pos = s.pos + 1 := by
            rw [hadv, advance_pos_of_ne]
            rw [hPrint]
            simp
          have hle : ((expect TOK_PRINT s).2).pos ≤
              ((expect TOK_SEMICOLON (expect TOK_RPAREN s3).2).2).pos :=
            ((((e2.expr_trans e3).expr_trans e4).expr_trans e5)).pos_le
          omega
        by_cases hE5 : (expect TOK_SEMICOLON (expect TOK_RPAREN s3).2).2.hadError = true
        · rw [if_pos hE5]
          exact ⟨chain.toStmtInv, hpos⟩
        · rw [if_neg hE5]
          refine ⟨chain.trans_stmt ⟨⟨rfl, le_rfl, (fun hh => hh), (fun hh => ⟨hh, rfl⟩),
            (fun _ hh => hh)⟩, (fun hh => absurd hh hE5)⟩, ?_⟩
          exact hpos
    · -- parse_stmt
      intro s s' h
      simp only [parse_stmt] at h
      split at h
      · rename_i hInt
        obtain ⟨inv, hp⟩ := ihD _ _ h
        exact ⟨inv, fun _ => hp hInt⟩
      · split at h
        · rename_i hPrint
          obtain ⟨inv, hp⟩ := ihP _ _ h
          exact ⟨inv, fun _ => hp hPrint⟩
        · simp only [Option.some.injEq] at h
          subst h
          refine ⟨((emit_exprInv _ _).expr_trans (advance_exprInv _)).toStmtInv, ?_⟩
          intro hne
          have hc : (current_token (emit (.synBadStmtStart (current_token s).line
              (current_token s).col (current_token s).type (current_token s).text) s)).type ≠
              TOK_EOF := hne
          rw [advance_pos_of_ne _ hc]
          exact Nat.lt_succ_self _
    · -- parse_stmt_loop
      intro s s' h
      simp only [parse_stmt_loop] at h
      split at h
      · rename_i heof
        simp only [Option.some.injEq] at h
        subst h
        exact ⟨StmtInv.stmt_refl s, heof⟩
      · split at h
        · cases h
        · rename_i s1 heq
          obtain ⟨inv1, -⟩ := ihS _ _ heq
          obtain ⟨inv2, heof⟩ := ihL _ _ h
          exact ⟨inv1.stmt_trans inv2, heof⟩
    · -- parse_program
      intro s s' h
      simp only [parse_program] at h
      split at h
      · cases h
      · rename_i s1 heq
        simp only [Option.some.injEq] at h
        subst h
        obtain ⟨inv1, heof⟩ := ihL _ _ heq
        have hx : expect TOK_EOF s1 = advance s1 := expect_of_match _ _ heof
        have hy : (advance s1).2 = s1 := advance_of_eof _ heof
        rw [hx, hy]
        exact ⟨inv1, heof⟩

/-- A cursor strictly inside the array: if the current token is not
end-of-input, the cursor has not reached the final index. -/
theorem pos_lt_of_not_eof (s : PState) (he : EndsWithEOF s.toks)
    (hp : s.pos ≤ lastIdx s.toks) (hne : (current_token s).type ≠ TOK_EOF) :
    s.pos < lastIdx s.toks := by
  rcases Nat.lt_or_ge s.pos (lastIdx s.toks) with h | h
  · exact h
  · exact absurd (show (current_token s).type = TOK_EOF by
      unfold current_token; rw [le_antisymm hp h]; exact he.2) hne

/-- Transport the end-of-input/bound facts across one parsing step. -/
theorem StepInv.carry {s s' : PState} (inv : StepInv s s') (he : EndsWithEOF s.toks)
    (hp : s.pos ≤ lastIdx s.toks) :
    EndsWithEOF s'.toks ∧ s'.pos ≤ lastIdx s'.toks ∧
      lastIdx s'.toks = lastIdx s.toks ∧ s.pos ≤ s'.pos :=
  ⟨inv.toks_eq ▸ he, by rw [inv.toks_eq]; exact inv.bound he hp,
   by rw [inv.toks_eq], inv.pos_le⟩

/-- Fuel sufficiency: for a token sequence ending in the end-of-input
token, each parser function completes (never exhausts its fuel) once the
fuel is at least a small constant plus four tokens' worth per remaining
token.  In particular `parse_program` always terminates on such input. -/
theorem parse_sufficiency : ∀ fuel : Nat,
    (∀ s, EndsWithEOF s.toks → s.pos ≤ lastIdx s.toks →
      1 + 4 * (lastIdx s.toks - s.pos) ≤ fuel → (parse_factor fuel s).isSome) ∧
    (∀ left s, EndsWithEOF s.toks → s.pos ≤ lastIdx s.toks →
      2 + 4 * (lastIdx s.toks - s.pos) ≤ fuel → (parse_term_loop fuel left s).isSome) ∧
    (∀ s, EndsWithEOF s.toks → s.pos ≤ lastIdx s.toks →
      3 + 4 * (lastIdx s.toks - s.pos) ≤ fuel → (parse_term fuel s).isSome) ∧
    (∀ left s, EndsWithEOF s.toks → s.pos ≤ lastIdx s.toks →
      3 + 4 * (lastIdx s.toks - s.pos) ≤ fuel → (parse_expr_loop fuel left s).isSome) ∧
    (∀ s, EndsWithEOF s.toks → s.pos ≤ lastIdx s.toks →
      4 + 4 * (lastIdx s.toks - s.pos) ≤ fuel → (parse_expr fuel s).isSome) ∧
    (∀ s, EndsWithEOF s.toks → s.pos ≤ lastIdx s.toks →
      5 + 4 * (lastIdx s.toks - s.pos) ≤ fuel → (parse_declaration fuel s).isSome) ∧
    (∀ s, EndsWithEOF s.toks → s.pos ≤ lastIdx s.toks →
      5 + 4 * (lastIdx s.toks - s.pos) ≤ fuel → (parse_print fuel s).isSome) ∧
    (∀ s, EndsWithEOF s.toks → s.pos ≤ lastIdx s.toks →
      6 + 4 * (lastIdx s.toks - s.pos) ≤ fuel → (parse_stmt fuel s).isSome) ∧
    (∀ s, EndsWithEOF s.toks → s.pos ≤ lastIdx s.toks →
      7 + 4 * (lastIdx s.toks - s.pos) ≤ fuel → (parse_stmt_loop fuel s).isSome) ∧
    (∀ s, EndsWithEOF s.toks → s.pos ≤ lastIdx s.toks →
      8 + 4 * (lastIdx s.toks - s.pos) ≤ fuel → (parse_program fuel s).isSome) := by
  intro fuel
  induction fuel with
  | zero =>
    refine ⟨?_, ?_, ?_, ?_, ?_, ?_, ?_, ?_, ?_, ?_⟩ <;> intros <;> omega
  | succ fuel ih =>
    obtain ⟨ihF, ihTL, ihT, ihEL, ihE, ihD, ihP, ihS, ihL, ihPr⟩ := ih
    have invs := parse_invariants fuel
    refine ⟨?_, ?_, ?_, ?_, ?_, ?_, ?_, ?_, ?_, ?_⟩
    · -- parse_factor
      intro s he hp hf
      simp only [parse_factor]
      split
      · simp
      · split
        · split <;> simp
        · split
          · rename_i hlp
            have hne : (current_token s).type ≠ TOK_EOF := by rw [hlp]; simp
            have hlt := pos_lt_of_not_eof s he hp hne
            obtain ⟨he1, hp1, hl1, -⟩ := (advance_exprInv s).toStepInv.carry he hp
            have hpos1 : ((advance s).2).pos = s.pos + 1 := advance_pos_of_ne s hne
            have hsome := ihE _ he1 hp1 (by rw [hl1]; omega)
            obtain ⟨⟨val, s1⟩, heq⟩ := Option.isSome_iff_exists.mp hsome
            rw [heq]
            simp
          · simp
    · -- parse_term_loop
      intro left s he hp hf
      simp only [parse_term_loop]
      split
      · rename_i hop
        have hne : (current_token s).type ≠ TOK_EOF := by
          rcases hop with h | h <;> rw [h] <;> simp
        have hlt := pos_lt_of_not_eof s he hp hne
        obtain ⟨he1, hp1, hl1, -⟩ := (advance_exprInv s).toStepInv.carry he hp
        have hpos1 : ((advance s).2).pos = s.pos + 1 := advance_pos_of_ne s hne
        have hsome := ihF _ he1 hp1 (by rw [hl1]; omega)
        obtain ⟨⟨right, s2⟩, heq⟩ := Option.isSome_iff_exists.mp hsome
        have inv2 := invs.1 _ _ _ heq
        obtain ⟨he2, hp2, hl2, hle2⟩ := inv2.toStepInv.carry he1 hp1
        rw [heq]
        simp only []
        split
        · exact ihTL _ _ he2 hp2 (by rw [hl2, hl1] at *; omega)
        · split
          · exact ihTL _ _ he2 hp2
              (show 2 + 4 * (lastIdx s2.toks - s2.pos) ≤ fuel by rw [hl2, hl1] at *; omega)
          · exact ihTL _ _ he2 hp2 (by rw [hl2, hl1] at *; omega)
      · simp
    · -- parse_term
      intro s he hp hf
      simp only [parse_term]
      have hsome := ihF _ he hp (by omega)
      obtain ⟨⟨left, s1⟩, heq⟩ := Option.isSome_iff_exists.mp hsome
      have inv1 := invs.1 _ _ _ heq
      obtain ⟨he1, hp1, hl1, hle1⟩ := inv1.toStepInv.carry he hp
      rw [heq]
      exact ihTL _ _ he1 hp1 (by rw [hl1] at *; omega)
    · -- parse_expr_loop
      intro left s he hp hf
      simp only [parse_expr_loop]
      split
      · rename_i hop
        have hne : (current_token s).type ≠ TOK_EOF := by
          rcases hop with h | h <;> rw [h] <;> simp
        have hlt := pos_lt_of_not_eof s he hp hne
        obtain ⟨he1, hp1, hl1, -⟩ := (advance_exprInv s).toStepInv.carry he hp
        have hpos1 : ((advance s).2).pos = s.pos + 1 := advance_pos_of_ne s hne
        have hsome := ihT _ he1 hp1 (by rw [hl1]; omega)
        obtain ⟨⟨right, s2⟩, heq⟩ := Option.isSome_iff_exists.mp hsome
        have inv2 := invs.2.2.1 _ _ _ heq
        obtain ⟨he2, hp2, hl2, hle2⟩ := inv2.toStepInv.carry he1 hp1
        rw [heq]
        simp only []
        split
        · exact ihEL _ _ he2 hp2 (by rw [hl2, hl1] at *; omega)
        · exact ihEL _ _ he2 hp2 (by rw [hl2, hl1] at *; omega)
      · simp
    · -- parse_expr
      intro s he hp hf
      simp only [parse_expr]
      have hsome := ihT _ he hp (by omega)
      obtain ⟨⟨left, s1⟩, heq⟩ := Option.isSome_iff_exists.mp hsome
      have inv1 := invs.2.2.1 _ _ _ heq
      obtain ⟨he1, hp1, hl1, hle1⟩ := inv1.toStepInv.carry he hp
      rw [heq]
      exact ihEL _ _ he1 hp1 (by rw [hl1] at *; omega)
    · -- parse_declaration
      intro s he hp hf
      simp only [parse_declaration]
      have c1 := (expect_exprInv TOK_INT s).toStepInv.carry he hp
      obtain ⟨he1, hp1, hl1, hle1⟩ := c1
      have c2 := (expect_exprInv TOK_IDENTIFIER (expect TOK_INT s).2).toStepInv.carry he1 hp1
      obtain ⟨he2, hp2, hl2, hle2⟩ := c2
      have c3 := (expect_exprInv TOK_ASSIGN
        (expect TOK_IDENTIFIER (expect TOK_INT s).2).2).toStepInv.carry he2 hp2
      obtain ⟨he3, hp3, hl3, hle3⟩ := c3
      have hsome := ihE _ he3 hp3 (by rw [hl3, hl2, hl1] at *; omega)
      obtain ⟨⟨value, s4⟩, heq⟩ := Option.isSome_iff_exists.mp hsome
      rw [heq]
      simp
    · -- parse_print
      intro s he hp hf
      simp only [parse_print]
      have c1 := (expect_exprInv TOK_PRINT s).toStepInv.carry he hp
      obtain ⟨he1, hp1, hl1, hle1⟩ := c1
      have c2 := (expect_exprInv TOK_LPAREN (expect TOK_PRINT s).2).toStepInv.carry he1 hp1
      obtain ⟨he2, hp2, hl2, hle2⟩ := c2
      have hsome := ihE _ he2 hp2 (by rw [hl2, hl1] at *; omega)
      obtain ⟨⟨value, s3⟩, heq⟩ := Option.isSome_iff_exists.mp hsome
      rw [heq]
      simp
    · -- parse_stmt
      intro s he hp hf
      simp only [parse_stmt]
      split
      · exact ihD _ he hp (by omega)
      · split
        · exact ihP _ he hp (by omega)
        · simp
    · -- parse_stmt_loop
      intro s he hp hf
      simp only [parse_stmt_loop]
      split
      · simp
      · rename_i hne
        have hlt := pos_lt_of_not_eof s he hp hne
        have hsome := ihS _ he hp (by omega)
        obtain ⟨s1, heq⟩ := Option.isSome_iff_exists.mp hsome
        obtain ⟨inv1, hprog⟩ := invs.2.2.2.2.2.2.2.1 _ _ heq
        obtain ⟨he1, hp1, hl1, -⟩ := inv1.toStepInv.carry he hp
        have hstep : s.pos < s1.pos := hprog hne
        rw [heq]
        exact ihL _ he1 hp1 (by rw [hl1] at *; omega)
    · -- parse_program
      intro s he hp hf
      simp only [parse_program]
      have hsome := ihL _ he hp (by omega)
      obtain ⟨s1, heq⟩ := Option.isSome_iff_exists.mp hsome
      rw [heq]
      simp

/-- The specification-side name lookup agrees with `sym_lookup`. -/
theorem SpecModel.lookup_eq_sym_lookup (syms : List Variable) (name : String) :
    SpecModel.lookup syms name = (sym_lookup syms name).map (fun v => v.value) := by
  induction syms with
  | nil => rfl
  | cons v rest ih =>
    by_cases h : v.name = name <;> simp [SpecModel.lookup, sym_lookup, h, ih]

/-- Execution of a statement list decomposes across its head. -/
theorem SpecModel.exec_cons (env : List Variable) (st : SpecModel.Stmt)
    (rest : List SpecModel.Stmt) (env1 env2 : List Variable) (outs1 outs2 : List Int)
    (h1 : SpecModel.exec env [st] = some (env1, outs1))
    (h2 : SpecModel.exec env1 rest = some (env2, outs2)) :
    SpecModel.exec env (st :: rest) = some (env2, outs1 ++ outs2) := by
  cases st with
  | decl x e =>
    simp only [SpecModel.exec] at h1 ⊢
    split at h1
    · cases h1
    · split at h1
      · cases h1
      · rename_i hL hv
        simp only [SpecModel.exec, Option.some.injEq, Prod.mk.injEq] at h1
        obtain ⟨rfl, rfl⟩ := h1
        simpa using h2
  | print e =>
    simp only [SpecModel.exec] at h1 ⊢
    split at h1
    · cases h1
    · rename_i hv
      simp only [SpecModel.exec, Option.some.injEq, Prod.mk.injEq] at h1
      obtain ⟨rfl, rfl⟩ := h1
      simp [h2]

/-- An error-free `decl_action` happened before any error, on a fresh
name, under the capacity limit, and appended exactly one entry. -/
theorem decl_action_clean (id : Token) (value : Int) (s : PState)
    (h : (decl_action id value s).hadError = false) :
    s.hadError = false ∧ sym_lookup s.syms id.text = none ∧ s.syms.length < 256 ∧
      decl_action id value s = { s with syms := s.syms ++ [⟨id.text, value, true⟩] } := by
  by_cases hE : s.hadError = false
  · cases hL : sym_lookup s.syms id.text with
    | some v =>
      rw [decl_action_eq_of_redeclared id value s hE (by rw [hL]; rfl)] at h
      simp at h
    | none =>
      by_cases hC : s.syms.length < 256
      · exact ⟨hE, rfl, hC, decl_action_eq_of_fresh id value s hE hL hC⟩
      · exfalso
        unfold decl_action sym_declare at h
        rw [if_pos hE, hL, if_pos (by omega)] at h
        simp at h
  · unfold decl_action at h
    rw [if_neg hE] at h
    exact absurd h hE

/-- `tokAt` at the cursor is the current token. -/
theorem tokAt_self (s : PState) : tokAt s.toks s.pos = current_token s := rfl

/-- Correspondence of the fused parser/evaluator with the
specification-side grammar and standard evaluation: every error-free run
of an implementation parsing function parses exactly the phrase the
grammar describes and returns the standard evaluation of its abstract
syntax tree, with the statement level performing exactly the
specification's declare-once and print effects. -/
theorem parse_correspondence : ∀ fuel : Nat,
    (∀ s v s', parse_factor fuel s = some (v, s') → s'.hadError = false →
      ∃ e, SpecModel.pFactor s.toks fuel s.pos = some (e, s'.pos) ∧
        SpecModel.eval s.syms e = some v) ∧
    (∀ left acc s v s', parse_term_loop fuel left s = some (v, s') → s'.hadError = false →
      SpecModel.eval s.syms acc = some left →
      ∃ e, SpecModel.pTermLoop s.toks fuel acc s.pos = some (e, s'.pos) ∧
        SpecModel.eval s.syms e = some v) ∧
    (∀ s v s', parse_term fuel s = some (v, s') → s'.hadError = false →
      ∃ e, SpecModel.pTerm s.toks fuel s.pos = some (e, s'.pos) ∧
        SpecModel.eval s.syms e = some v) ∧
    (∀ left acc s v s', parse_expr_loop fuel left s = some (v, s') → s'.hadError = false →
      SpecModel.eval s.syms acc = some left →
      ∃ e, SpecModel.pExprLoop s.toks fuel acc s.pos = some (e, s'.pos) ∧
        SpecModel.eval s.syms e = some v) ∧
    (∀ s v s', parse_expr fuel s = some (v, s') → s'.hadError = false →
      ∃ e, SpecModel.pExpr s.toks fuel s.pos = some (e, s'.pos) ∧
        SpecModel.eval s.syms e = some v) ∧
    (∀ s s', parse_declaration fuel s = some s' → s'.hadError = false →
      ∃ x e v, SpecModel.pDecl s.toks fuel s.pos = some (.decl x e, s'.pos) ∧
        SpecModel.lookup s.syms x = none ∧ SpecModel.eval s.syms e = some v ∧
        s'.syms = s.syms ++ [⟨x, v, true⟩] ∧ s'.output = s.output) ∧
    (∀ s s', parse_print fuel s = some s' → s'.hadError = false →
      ∃ e v, SpecModel.pPrint s.toks fuel s.pos = some (.print e, s'.pos) ∧
        SpecModel.eval s.syms e = some v ∧
        s'.syms = s.syms ∧ s'.output = s.output ++ [v]) ∧
    (∀ s s', parse_stmt fuel s = some s' → s'.hadError = false →
      ∃ st outs, SpecModel.pStmt s.toks fuel s.pos = some (st, s'.pos) ∧
        SpecModel.exec s.syms [st] = some (s'.syms, outs) ∧
        s'.output = s.output ++ outs) ∧
    (∀ s s', parse_stmt_loop fuel s = some s' → s'.hadError = false →
      ∃ prog outs, SpecModel.pStmtList s.toks fuel s.pos = some (prog, s'.pos) ∧
        SpecModel.exec s.syms prog = some (s'.syms, outs) ∧
        s'.output = s.output ++ outs) ∧
    (∀ s s', parse_program fuel s = some s' → s'.hadError = false → s.pos = 0 →
      ∃ prog outs, SpecModel.parseProgram s.toks fuel = some prog ∧
        SpecModel.exec s.syms prog = some (s'.syms, outs) ∧
        s'.output = s.output ++ outs) := by
  intro fuel
  induction fuel with
  | zero =>
    refine ⟨?_, ?_, ?_, ?_, ?_, ?_, ?_, ?_, ?_, ?_⟩ <;> intros <;>
      simp_all [parse_factor, parse_term_loop, parse_term, parse_expr_loop,
        parse_expr, parse_declaration, parse_print, parse_stmt,
        parse_stmt_loop, parse_program]
  | succ fuel ih =>
    obtain ⟨ihF, ihTL, ihT, ihEL, ihE, ihD, ihP, ihS, ihL, ihPr⟩ := ih
    have invs := parse_invariants fuel
    refine ⟨?_, ?_, ?_, ?_, ?_, ?_, ?_, ?_, ?_, ?_⟩
    · -- parse_factor
      intro s v s' h hE
      simp only [parse_factor] at h
      split at h
      · rename_i hINT
        simp only [Option.some.injEq, Prod.mk.injEq] at h
        obtain ⟨rfl, rfl⟩ := h
        have hne : (current_token s).type ≠ TOK_EOF := by rw [hINT]; simp
        refine ⟨.lit (current_token s).int_value, ?_, rfl⟩
        simp only [SpecModel.pFactor]
        rw [tokAt_self, if_pos hINT, advance_pos_of_ne s hne]
      · rename_i hnINT
        split at h
        · rename_i hID
          split at h
          · rename_i hlook
            simp only [Option.some.injEq, Prod.mk.injEq] at h
            obtain ⟨rfl, rfl⟩ := h
            simp [emit] at hE
          · rename_i v0 hlook
            simp only [Option.some.injEq, Prod.mk.injEq] at h
            obtain ⟨rfl, rfl⟩ := h
            rw [advance_syms] at hlook
            have hne : (current_token s).type ≠ TOK_EOF := by rw [hID]; simp
            refine ⟨.var (current_token s).text, ?_, ?_⟩
            · simp only [SpecModel.pFactor]
              rw [tokAt_self, if_neg hnINT, if_pos hID, advance_pos_of_ne s hne]
            · simp only [SpecModel.eval]
              rw [SpecModel.lookup_eq_sym_lookup, hlook]
              rfl
        · rename_i hnID
          split at h
          · rename_i hLP
            split at h
            · cases h
            · rename_i val s1 heq
              simp only [Option.some.injEq, Prod.mk.injEq] at h
              obtain ⟨rfl, rfl⟩ := h
              have hne : (current_token s).type ≠ TOK_EOF := by rw [hLP]; simp
              obtain ⟨hRP, hs'eq, -⟩ := expect_clean TOK_RPAREN s1 hE
              have hs1E : s1.hadError = false :=
                ((expect_exprInv TOK_RPAREN s1).clean hE).1
              obtain ⟨e, heSpec, heEval⟩ := ihE _ _ _ heq hs1E
              rw [advance_toks, advance_pos_of_ne s hne] at heSpec
              rw [advance_syms] at heEval
              have inv1 : ExprInv (advance s).2 s1 := invs.2.2.2.2.1 _ _ _ heq
              have hs1toks : s1.toks = s.toks := by rw [inv1.toks_eq, advance_toks]
              have hRP2 : (tokAt s.toks s1.pos).type = TOK_RPAREN := by
                unfold current_token at hRP
                rw [hs1toks] at hRP
                exact hRP
              have hRPne : (current_token s1).type ≠ TOK_EOF := by rw [hRP]; simp
              refine ⟨e, ?_, heEval⟩
              simp only [SpecModel.pFactor]
              rw [tokAt_self, if_neg hnINT, if_neg hnID, if_pos hLP]
              simp only [heSpec]
              rw [if_pos hRP2, hs'eq, advance_pos_of_ne s1 hRPne]
          · simp only [Option.some.injEq, Prod.mk.injEq] at h
            obtain ⟨rfl, rfl⟩ := h
            rw [advance_hadError] at hE
            simp [emit] at hE
    · -- parse_term_loop
      intro left acc s v s' h hE hacc
      simp only [parse_term_loop] at h
      split at h
      · rename_i hop
        rw [advance_fst] at h
        split at h
        · cases h
        · rename_i right s2 heq
          have hne : (current_token s).type ≠ TOK_EOF := by
            rcases hop with h1 | h1 <;> rw [h1] <;> simp
          have inv2 : ExprInv (advance s).2 s2 := invs.1 _ _ _ heq
          have hs2syms : s2.syms = s.syms := by rw [inv2.syms_eq, advance_syms]
          have hs2toks : s2.toks = s.toks := by rw [inv2.toks_eq, advance_toks]
          split at h
          · rename_i hSTAR
            have hs2E : s2.hadError = false := ((invs.2.1 _ _ _ _ h).clean hE).1
            obtain ⟨ef, hfSpec, hfEval⟩ := ihF _ _ _ heq hs2E
            rw [advance_toks, advance_pos_of_ne s hne] at hfSpec
            rw [advance_syms] at hfEval
            have haccmul : SpecModel.eval s2.syms (.mul acc ef) = some (left * right) := by
              rw [hs2syms]
              simp [SpecModel.eval, hacc, hfEval]
            obtain ⟨e, hlSpec, hlEval⟩ := ihTL _ _ _ _ _ h hE haccmul
            rw [hs2toks] at hlSpec
            rw [hs2syms] at hlEval
            refine ⟨e, ?_, hlEval⟩
            simp only [SpecModel.pTermLoop]
            rw [tokAt_self, if_pos hop]
            simp only [hfSpec]
            rw [if_pos hSTAR]
            exact hlSpec
          · split at h
            · have hs' : s'.hadError = true :=
                (invs.2.1 _ _ _ _ h).sticky (by simp [emit])
              rw [hs'] at hE
              cases hE
            · rename_i hnSTAR hnz
              have hs2E : s2.hadError = false := ((invs.2.1 _ _ _ _ h).clean hE).1
              obtain ⟨ef, hfSpec, hfEval⟩ := ihF _ _ _ heq hs2E
              rw [advance_toks, advance_pos_of_ne s hne] at hfSpec
              rw [advance_syms] at hfEval
              have haccdiv : SpecModel.eval s2.syms (.div acc ef) =
                  some (Int.tdiv left right) := by
                rw [hs2syms]
                simp [SpecModel.eval, hacc, hfEval, hnz]
              obtain ⟨e, hlSpec, hlEval⟩ := ihTL _ _ _ _ _ h hE haccdiv
              rw [hs2toks] at hlSpec
              rw [hs2syms] at hlEval
              refine ⟨e, ?_, hlEval⟩
              simp only [SpecModel.pTermLoop]
              rw [tokAt_self, if_pos hop]
              simp only [hfSpec]
              rw [if_neg hnSTAR]
              exact hlSpec
      · rename_i hnop
        simp only [Option.some.injEq, Prod.mk.injEq] at h
        obtain ⟨rfl, rfl⟩ := h
        refine ⟨acc, ?_, hacc⟩
        simp only [SpecModel.pTermLoop]
        rw [tokAt_self, if_neg hnop]
    · -- parse_term
      intro s v s' h hE
      simp only [parse_term] at h
      split at h
      · cases h
      · rename_i left s1 heq
        have hs1E : s1.hadError = false := ((invs.2.1 _ _ _ _ h).clean hE).1
        obtain ⟨ef, hfSpec, hfEval⟩ := ihF _ _ _ heq hs1E
        have inv1 : ExprInv s s1 := invs.1 _ _ _ heq
        obtain ⟨e, hlSpec, hlEval⟩ := ihTL _ _ _ _ _ h hE
          (by rw [inv1.syms_eq]; exact hfEval)
        rw [inv1.toks_eq] at hlSpec
        rw [inv1.syms_eq] at hlEval
        refine ⟨e, ?_, hlEval⟩
        simp only [SpecModel.pTerm]
        simp only [hfSpec]
        exact hlSpec
    · -- parse_expr_loop
      intro left acc s v s' h hE hacc
      simp only [parse_expr_loop] at h
      split at h
      · rename_i hop
        split at h
        · cases h
        · rename_i right s2 heq
          have hne : (current_token s).type ≠ TOK_EOF := by
            rcases hop with h1 | h1 <;> rw [h1] <;> simp
          have inv2 : ExprInv (advance s).2 s2 := invs.2.2.1 _ _ _ heq
          have hs2syms : s2.syms = s.syms := by rw [inv2.syms_eq, advance_syms]
          have hs2toks : s2.toks = s.toks := by rw [inv2.toks_eq, advance_toks]
          split at h
          · rename_i hPLUS
            have hs2E : s2.hadError = false := ((invs.2.2.2.1 _ _ _ _ h).clean hE).1
            obtain ⟨et, htSpec, htEval⟩ := ihT _ _ _ heq hs2E
            rw [advance_toks, advance_pos_of_ne s hne] at htSpec
            rw [advance_syms] at htEval
            have haccadd : SpecModel.eval s2.syms (.add acc et) = some (left + right) := by
              rw [hs2syms]
              simp [SpecModel.eval, hacc, htEval]
            obtain ⟨e, hlSpec, hlEval⟩ := ihEL _ _ _ _ _ h hE haccadd
            rw [hs2toks] at hlSpec
            rw [hs2syms] at hlEval
            refine ⟨e, ?_, hlEval⟩
            simp only [SpecModel.pExprLoop]
            rw [tokAt_self, if_pos hop]
            simp only [htSpec]
            rw [if_pos hPLUS]
            exact hlSpec
          · rename_i hnPLUS
            have hs2E : s2.hadError = false := ((invs.2.2.2.1 _ _ _ _ h).clean hE).1
            obtain ⟨et, htSpec, htEval⟩ := ihT _ _ _ heq hs2E
            rw [advance_toks, advance_pos_of_ne s hne] at htSpec
            rw [advance_syms] at htEval
            have haccsub : SpecModel.eval s2.syms (.sub acc et) = some (left - right) := by
              rw [hs2syms]
              simp [SpecModel.eval, hacc, htEval]
            obtain ⟨e, hlSpec, hlEval⟩ := ihEL _ _ _ _ _ h hE haccsub
            rw [hs2toks] at hlSpec
            rw [hs2syms] at hlEval
            refine ⟨e, ?_, hlEval⟩
            simp only [SpecModel.pExprLoop]
            rw [tokAt_self, if_pos hop]
            simp only [htSpec]
            rw [if_neg hnPLUS]
            exact hlSpec
      · rename_i hnop
        simp only [Option.some.injEq, Prod.mk.injEq] at h
        obtain ⟨rfl, rfl⟩ := h
        refine ⟨acc, ?_, hacc⟩
        simp only [SpecModel.pExprLoop]
        rw [tokAt_self, if_neg hnop]
    · -- parse_expr
      intro s v s' h hE
      simp only [parse_expr] at h
      split at h
      · cases h
      · rename_i left s1 heq
        have hs1E : s1.hadError = false := ((invs.2.2.2.1 _ _ _ _ h).clean hE).1
        obtain ⟨et, htSpec, htEval⟩ := ihT _ _ _ heq hs1E
        have inv1 : ExprInv s s1 := invs.2.2.1 _ _ _ heq
        obtain ⟨e, hlSpec, hlEval⟩ := ihEL _ _ _ _ _ h hE
          (by rw [inv1.syms_eq]; exact htEval)
        rw [inv1.toks_eq] at hlSpec
        rw [inv1.syms_eq] at hlEval
        refine ⟨e, ?_, hlEval⟩
        simp only [SpecModel.pExpr]
        simp only [htSpec]
        exact hlSpec
    · -- parse_declaration
      intro s s' h hE
      simp only [parse_declaration] at h
      split at h
      · cases h
      · rename_i value s4 heq
        simp only [Option.some.injEq] at h
        subst h
        obtain ⟨hs5E, hfresh, hcap, hact⟩ := decl_action_clean _ _ _ hE
        obtain ⟨hSEMI, hs5eq, -⟩ := expect_clean TOK_SEMICOLON s4 hs5E
        have hs4E : s4.hadError = false :=
          ((expect_exprInv TOK_SEMICOLON s4).clean hs5E).1
        have inv4 : ExprInv (expect TOK_ASSIGN (expect TOK_IDENTIFIER
            (expect TOK_INT s).2).2).2 s4 := invs.2.2.2.2.1 _ _ _ heq
        have hs3E : (expect TOK_ASSIGN (expect TOK_IDENTIFIER
            (expect TOK_INT s).2).2).2.hadError = false := (inv4.clean hs4E).1
        obtain ⟨hASSIGN, hs3eq, -⟩ :=
          expect_clean TOK_ASSIGN (expect TOK_IDENTIFIER (expect TOK_INT s).2).2 hs3E
        have hs2E : (expect TOK_IDENTIFIER (expect TOK_INT s).2).2.hadError = false :=
          ((expect_exprInv TOK_ASSIGN _).clean hs3E).1
        obtain ⟨hIDt, hs2eq, hidfst⟩ :=
          expect_clean TOK_IDENTIFIER (expect TOK_INT s).2 hs2E
        have hs1E : ((expect TOK_INT s).2).hadError = false :=
          ((expect_exprInv TOK_IDENTIFIER _).clean hs2E).1
        obtain ⟨hINTt, hs1eq, -⟩ := expect_clean TOK_INT s hs1E
        -- positions and state components along the clean path
        have hINTne : (current_token s).type ≠ TOK_EOF := by rw [hINTt]; simp
        have hp1 : ((expect TOK_INT s).2).pos = s.pos + 1 := by
          rw [hs1eq, advance_pos_of_ne s hINTne]
        have ht1 : ((expect TOK_INT s).2).toks = s.toks := by
          rw [hs1eq, advance_toks]
        have hsy1 : ((expect TOK_INT s).2).syms = s.syms := by
          rw [hs1eq, advance_syms]
        have hIDne : (current_token (expect TOK_INT s).2).type ≠ TOK_EOF := by
          rw [hIDt]; simp
        have hp2 : ((expect TOK_IDENTIFIER (expect TOK_INT s).2).2).pos = s.pos + 2 := by
          rw [hs2eq, advance_pos_of_ne _ hIDne, hp1]
        have ht2 : ((expect TOK_IDENTIFIER (expect TOK_INT s).2).2).toks = s.toks := by
          rw [hs2eq, advance_toks, ht1]
        have hsy2 : ((expect TOK_IDENTIFIER (expect TOK_INT s).2).2).syms = s.syms := by
          rw [hs2eq, advance_syms, hsy1]
        have hASSIGNne : (current_token (expect TOK_IDENTIFIER
            (expect TOK_INT s).2).2).type ≠ TOK_EOF := by rw [hASSIGN]; simp
        have hp3 : ((expect TOK_ASSIGN (expect TOK_IDENTIFIER
            (expect TOK_INT s).2).2).2).pos = s.pos + 3 := by
          rw [hs3eq, advance_pos_of_ne _ hASSIGNne, hp2]
        have ht3 : ((expect TOK_ASSIGN (expect TOK_IDENTIFIER
            (expect TOK_INT s).2).2).2).toks = s.toks := by
          rw [hs3eq, advance_toks, ht2]
        have hsy3 : ((expect TOK_ASSIGN (expect TOK_IDENTIFIER
            (expect TOK_INT s).2).2).2).syms = s.syms := by
          rw [hs3eq, advance_syms, hsy2]
        have ht4 : s4.toks = s.toks := by rw [inv4.toks_eq, ht3]
        have hsy4 : s4.syms = s.syms := by rw [inv4.syms_eq, hsy3]
        have hSEMIne : (current_token s4).type ≠ TOK_EOF := by rw [hSEMI]; simp
        have hp5 : ((expect TOK_SEMICOLON s4).2).pos = s4.pos + 1 := by
          rw [hs5eq, advance_pos_of_ne _ hSEMIne]
        have ht5 : ((expect TOK_SEMICOLON s4).2).toks = s.toks := by
          rw [hs5eq, advance_toks, ht4]
        have hsy5 : ((expect TOK_SEMICOLON s4).2).syms = s.syms := by
          rw [hs5eq, advance_syms, hsy4]
        have hout5 : ((expect TOK_SEMICOLON s4).2).output = s.output := by
          have c1 := (expect_exprInv TOK_INT s).output_eq
          have c2 := (expect_exprInv TOK_IDENTIFIER (expect TOK_INT s).2).output_eq
          have c3 := (expect_exprInv TOK_ASSIGN (expect TOK_IDENTIFIER
            (expect TOK_INT s).2).2).output_eq
          have c4 := inv4.output_eq
          have c5 := (expect_exprInv TOK_SEMICOLON s4).output_eq
          rw [c5, c4, c3, c2, c1]
        obtain ⟨e, heSpec, heEval⟩ := ihE _ _ _ heq hs4E
        rw [ht3, hp3] at heSpec
        rw [hsy3] at heEval
        -- token-type facts in spec form
        have hINTs : (tokAt s.toks s.pos).type = TOK_INT := hINTt
        have hIDs : (tokAt s.toks (s.pos + 1)).type = TOK_IDENTIFIER := by
          unfold current_token at hIDt
          rw [ht1, hp1] at hIDt
          exact hIDt
        have hASSIGNs : (tokAt s.toks (s.pos + 2)).type = TOK_ASSIGN := by
          unfold current_token at hASSIGN
          rw [ht2, hp2] at hASSIGN
          exact hASSIGN
        have hSEMIs : (tokAt s.toks s4.pos).type = TOK_SEMICOLON := by
          unfold current_token at hSEMI
          rw [ht4] at hSEMI
          exact hSEMI
        have hidtext : (expect TOK_IDENTIFIER (expect TOK_INT s).2).1.text =
            (tokAt s.toks (s.pos + 1)).text := by
          rw [hidfst]
          unfold current_token
          rw [ht1, hp1]
        refine ⟨(tokAt s.toks (s.pos + 1)).text, e, value, ?_, ?_, heEval, ?_, ?_⟩
        · simp only [SpecModel.pDecl]
          rw [if_pos ⟨hINTs, hIDs, hASSIGNs⟩]
          simp only [heSpec]
          rw [if_pos hSEMIs, hact]
          simp only [hp5]
        · rw [SpecModel.lookup_eq_sym_lookup, ← hidtext, ← hsy5, hfresh]
          rfl
        · rw [hact]
          simp only [hsy5, hidtext]
        · rw [hact]
          simp only [hout5]
    · -- parse_print
      intro s s' h hE
      simp only [parse_print] at h
      split at h
      · cases h
      · rename_i value s3 heq
        simp only [Option.some.injEq] at h
        subst h
        by_cases hE5 : (expect TOK_SEMICOLON (expect TOK_RPAREN s3).2).2.hadError = true
        · rw [if_pos hE5] at hE
          rw [hE5] at hE
          cases hE
        · rw [if_neg hE5] at hE ⊢
          have hs5E : (expect TOK_SEMICOLON (expect TOK_RPAREN s3).2).2.hadError = false := by
            simpa using hE5
          obtain ⟨hSEMI, hs5eq, -⟩ := expect_clean TOK_SEMICOLON (expect TOK_RPAREN s3).2 hs5E
          have hs4E : ((expect TOK_RPAREN s3).2).hadError = false :=
            ((expect_exprInv TOK_SEMICOLON _).clean hs5E).1
          obtain ⟨hRP, hs4eq, -⟩ := expect_clean TOK_RPAREN s3 hs4E
          have hs3E : s3.hadError = false :=
            ((expect_exprInv TOK_RPAREN s3).clean hs4E).1
          have inv3 : ExprInv (expect TOK_LPAREN (expect TOK_PRINT s).2).2 s3 :=
            invs.2.2.2.2.1 _ _ _ heq
          have hs2E : (expect TOK_LPAREN (expect TOK_PRINT s).2).2.hadError = false :=
            (inv3.clean hs3E).1
          obtain ⟨hLP, hs2eq, -⟩ := expect_clean TOK_LPAREN (expect TOK_PRINT s).2 hs2E
          have hs1E : ((expect TOK_PRINT s).2).hadError = false :=
            ((expect_exprInv TOK_LPAREN _).clean hs2E).1
          obtain ⟨hPR, hs1eq, -⟩ := expect_clean TOK_PRINT s hs1E
          have hPRne : (current_token s).type ≠ TOK_EOF := by rw [hPR]; simp
          have hp1 : ((expect TOK_PRINT s).2).pos = s.pos + 1 := by
            rw [hs1eq, advance_pos_of_ne s hPRne]
          have ht1 : ((expect TOK_PRINT s).2).toks = s.toks := by
            rw [hs1eq, advance_toks]
          have hsy1 : ((expect TOK_PRINT s).2).syms = s.syms := by
            rw [hs1eq, advance_syms]
          have hLPne : (current_token (expect TOK_PRINT s).2).type ≠ TOK_EOF := by
            rw [hLP]; simp
          have hp2 : ((expect TOK_LPAREN (expect TOK_PRINT s).2).2).pos = s.pos + 2 := by
            rw [hs2eq, advance_pos_of_ne _ hLPne, hp1]
          have ht2 : ((expect TOK_LPAREN (expect TOK_PRINT s).2).2).toks = s.toks := by
            rw [hs2eq, advance_toks, ht1]
          have hsy2 : ((expect TOK_LPAREN (expect TOK_PRINT s).2).2).syms = s.syms := by
            rw [hs2eq, advance_syms, hsy1]
          have ht3 : s3.toks = s.toks := by rw [inv3.toks_eq, ht2]
          have hsy3 : s3.syms = s.syms := by rw [inv3.syms_eq, hsy2]
          have hout3 : s3.output = s.output := by
            rw [inv3.output_eq, (expect_exprInv TOK_LPAREN _).output_eq,
              (expect_exprInv TOK_PRINT s).output_eq]
          have hRPne : (current_token s3).type ≠ TOK_EOF := by rw [hRP]; simp
          have hp4 : ((expect TOK_RPAREN s3).2).pos = s3.pos + 1 := by
            rw [hs4eq, advance_pos_of_ne _ hRPne]
          have ht4 : ((expect TOK_RPAREN s3).2).toks = s.toks := by
            rw [hs4eq, advance_toks, ht3]
          have hSEMIne : (current_token (expect TOK_RPAREN s3).2).type ≠ TOK_EOF := by
            rw [hSEMI]; simp
          have hp5 : ((expect TOK_SEMICOLON (expect TOK_RPAREN s3).2).2).pos =
              s3.pos + 2 := by
            rw [hs5eq, advance_pos_of_ne _ hSEMIne, hp4]
          have hsy5 : ((expect TOK_SEMICOLON (expect TOK_RPAREN s3).2).2).syms =
              s.syms := by
            rw [hs5eq, advance_syms, hs4eq, advance_syms, hsy3]
          have hout5 : ((expect TOK_SEMICOLON (expect TOK_RPAREN s3).2).2).output =
              s.output := by
            rw [hs5eq, advance_output, hs4eq, advance_output, hout3]
          obtain ⟨e, heSpec, heEval⟩ := ihE _ _ _ heq hs3E
          rw [ht2, hp2] at heSpec
          rw [hsy2] at heEval
          have hPRs : (tokAt s.toks s.pos).type = TOK_PRINT := hPR
          have hLPs : (tokAt s.toks (s.pos + 1)).type = TOK_LPAREN := by
            unfold current_token at hLP
            rw [ht1, hp1] at hLP
            exact hLP
          have hRPs : (tokAt s.toks s3.pos).type = TOK_RPAREN := by
            unfold current_token at hRP
            rw [ht3] at hRP
            exact hRP
          have hSEMIs : (tokAt s.toks (s3.pos + 1)).type = TOK_SEMICOLON := by
            unfold current_token at hSEMI
            rw [ht4, hp4] at hSEMI
            exact hSEMI
          refine ⟨e, value, ?_, heEval, ?_, ?_⟩
          · simp only [SpecModel.pPrint]
            rw [if_pos ⟨hPRs, hLPs⟩]
            simp only [heSpec]
            rw [if_pos ⟨hRPs, hSEMIs⟩]
            simp only [hp5]
          · simp only [hsy5]
          · simp only [hout5]
    · -- parse_stmt
      intro s s' h hE
      simp only [parse_stmt] at h
      split at h
      · rename_i hINT
        obtain ⟨x, e, v, hspec, hlk, hev, hsy, hout⟩ := ihD _ _ h hE
        refine ⟨.decl x e, [], ?_, ?_, ?_⟩
        · simp only [SpecModel.pStmt]
          rw [tokAt_self, if_pos hINT]
          exact hspec
        · simp [SpecModel.exec, hlk, hev, hsy]
        · simp [hout]
      · rename_i hnINT
        split at h
        · rename_i hPRINT
          obtain ⟨e, v, hspec, hev, hsy, hout⟩ := ihP _ _ h hE
          refine ⟨.print e, [v], ?_, ?_, ?_⟩
          · simp only [SpecModel.pStmt]
            rw [tokAt_self, if_neg hnINT, if_pos hPRINT]
            exact hspec
          · simp [SpecModel.exec, hev, hsy]
          · exact hout
        · simp only [Option.some.injEq] at h
          subst h
          rw [advance_hadError] at hE
          simp [emit] at hE
    · -- parse_stmt_loop
      intro s s' h hE
      simp only [parse_stmt_loop] at h
      split at h
      · rename_i heof
        simp only [Option.some.injEq] at h
        subst h
        refine ⟨[], [], ?_, rfl, by simp⟩
        simp only [SpecModel.pStmtList]
        rw [tokAt_self, if_pos heof]
      · rename_i hne
        split at h
        · cases h
        · rename_i s1 heq
          have hinv1 : StmtInv s s1 := (invs.2.2.2.2.2.2.2.1 _ _ heq).1
          have hs1E : s1.hadError = false :=
            ((invs.2.2.2.2.2.2.2.2.1 _ _ h).1.clean hE).1
          obtain ⟨st, outs1, hstSpec, hstExec, hstOut⟩ := ihS _ _ heq hs1E
          obtain ⟨prog, outs2, hlSpec, hlExec, hlOut⟩ := ihL _ _ h hE
          rw [hinv1.toks_eq] at hlSpec
          refine ⟨st :: prog, outs1 ++ outs2, ?_, ?_, ?_⟩
          · simp only [SpecModel.pStmtList]
            rw [tokAt_self, if_neg hne]
            simp only [hstSpec, hlSpec]
          · exact SpecModel.exec_cons _ _ _ _ _ _ _ hstExec hlExec
          · rw [hlOut, hstOut, List.append_assoc]
    · -- parse_program
      intro s s' h hE hp0
      simp only [parse_program] at h
      split at h
      · cases h
      · rename_i s1 heq
        simp only [Option.some.injEq] at h
        subst h
        have heof : (current_token s1).type = TOK_EOF :=
          (invs.2.2.2.2.2.2.2.2.1 _ _ heq).2
        have hfix : (expect TOK_EOF s1).2 = s1 := by
          rw [expect_of_match _ _ heof, advance_of_eof _ heof]
        rw [hfix] at hE ⊢
        obtain ⟨prog, outs, hlSpec, hlExec, hlOut⟩ := ihL _ _ heq hE
        rw [hp0] at hlSpec
        refine ⟨prog, outs, ?_, hlExec, hlOut⟩
        simp only [SpecModel.parseProgram]
        simp only [hlSpec]

/-- Order on `UInt32` through `toNat`. -/
theorem uint32_le_iff_toNat_le (a b : UInt32) : a ≤ b ↔ a.toNat ≤ b.toNat := by
  rw [UInt32.le_def, BitVec.le_def]
  rfl

/-- A decimal digit is not a letter. -/
theorem isAlpha_eq_false_of_isDigit (c : Char) (h : c.isDigit = true) :
    c.isAlpha = false := by
  simp only [Char.isDigit, Char.isAlpha, Char.isUpper, Char.isLower,
    Bool.and_eq_true, Bool.or_eq_false_iff, Bool.and_eq_false_iff,
    decide_eq_true_eq, decide_eq_false_iff_not, ge_iff_le, not_le] at h ⊢
  obtain ⟨h1, h2⟩ := h
  rw [uint32_le_iff_toNat_le, show (48 : UInt32).toNat = 48 from rfl] at h1
  rw [uint32_le_iff_toNat_le, show (57 : UInt32).toNat = 57 from rfl] at h2
  constructor
  · refine Or.inl ?_
    intro hc
    rw [uint32_le_iff_toNat_le, show (65 : UInt32).toNat = 65 from rfl] at hc
    omega
  · refine Or.inl ?_
    intro hc
    rw [uint32_le_iff_toNat_le, show (97 : UInt32).toNat = 97 from rfl] at hc
    omega

/-- A decimal digit does not start an identifier. -/
theorem isIdentStart_eq_false_of_isDigit (c : Char) (h : c.isDigit = true) :
    isIdentStart c = false := by
  simp only [isIdentStart, Bool.or_eq_false_iff]
  refine ⟨isAlpha_eq_false_of_isDigit c h, ?_⟩
  simp only [beq_eq_false_iff_ne, ne_eq]
  rintro rfl
  exact absurd h (by decide)

/-- The tokenizer's fuel is sufficient: with fuel at least the number of
remaining characters, the scan never exhausts its fuel (every step
consumes at least one character). -/
theorem tokAux_isSome : ∀ (fuel : Nat) (src : List Char), src.length ≤ fuel →
    ∀ line col acc, (tokAux fuel src line col acc).isSome := by
  intro fuel
  induction fuel with
  | zero =>
    intro src hlen line col acc
    have : src = [] := List.length_eq_zero.mp (Nat.le_zero.mp hlen)
    subst this
    simp [tokAux]
  | succ fuel ihn =>
    intro src hlen line col acc
    cases src with
    | nil => simp [tokAux]
    | cons c cs =>
      have hcs : cs.length ≤ fuel := by
        simp only [List.length_cons] at hlen
        omega
      show (tokStep (tokAux fuel) c cs line col acc).isSome = true
      unfold tokStep
      dsimp only
      by_cases h1 : c = ' ' ∨ c = '\t' ∨ c = '\r'
      · rw [if_pos h1]
        exact ihn cs hcs _ _ _
      · rw [if_neg h1]
        by_cases h2 : c = '\n'
        · rw [if_pos h2]
          exact ihn cs hcs _ _ _
        · rw [if_neg h2]
          by_cases h3 : c = '/' ∧ cs.head? = some '/'
          · rw [if_pos h3]
            exact ihn _ (le_trans (List.dropWhile_sublist _).length_le hcs) _ _ _
          · rw [if_neg h3]
            by_cases h4 : isIdentStart c = true
            · rw [if_pos h4]
              by_cases h5 : 4096 ≤ acc.length
              · rw [if_pos h5]
                rfl
              · rw [if_neg h5]
                exact ihn _ (le_trans (List.dropWhile_sublist _).length_le hcs) _ _ _
            · rw [if_neg h4]
              by_cases h6 : c.isDigit = true
              · rw [if_pos h6]
                cases hd : (List.dropWhile Char.isDigit cs).head? with
                | some d =>
                  dsimp only
                  by_cases h7 : d.isAlpha = true ∨ d = '_'
                  · rw [if_pos h7]
                    rfl
                  · rw [if_neg h7]
                    by_cases h8 : 4096 ≤ acc.length
                    · rw [if_pos h8]
                      rfl
                    · rw [if_neg h8]
                      exact ihn _ (le_trans (List.dropWhile_sublist _).length_le hcs) _ _ _
                | none =>
                  dsimp only
                  by_cases h8 : 4096 ≤ acc.length
                  · rw [if_pos h8]
                    rfl
                  · rw [if_neg h8]
                    exact ihn _ (le_trans (List.dropWhile_sublist _).length_le hcs) _ _ _
              · rw [if_neg h6]
                cases hty : (if c = '=' then some TOK_ASSIGN
                    else if c = '+' then some TOK_PLUS
                    else if c = '-' then some TOK_MINUS
                    else if c = '*' then some TOK_STAR
                    else if c = '/' then some TOK_SLASH
                    else if c = '(' then some TOK_LPAREN
                    else if c = ')' then some TOK_RPAREN
                    else if c = ';' then some TOK_SEMICOLON
                    else none) with
                | some ty =>
                  dsimp only
                  by_cases h8 : 4096 ≤ acc.length
                  · rw [if_pos h8]
                    rfl
                  · rw [if_neg h8]
                    exact ihn cs hcs _ _ _
                | none =>
                  dsimp only
                  rfl

/-- On success the tokenizer's worker returns its accumulated tokens
followed by exactly one end-of-input token. -/
theorem tokAux_ok_shape : ∀ (fuel : Nat) (src : List Char) (line col : Nat)
    (acc ts : List Token), tokAux fuel src line col acc = some (.ok ts) →
    ∃ pre l2 c2, ts = pre ++ [⟨TOK_EOF, "EOF", 0, l2, c2⟩] := by
  intro fuel
  induction fuel with
  | zero =>
    intro src line col acc ts h
    cases src with
    | nil =>
      simp only [tokAux, Option.some.injEq, Except.ok.injEq] at h
      exact ⟨acc, line, col, h.symm⟩
    | cons c cs => simp [tokAux] at h
  | succ fuel ihn =>
    intro src line col acc ts h
    cases src with
    | nil =>
      simp only [tokAux, Option.some.injEq, Except.ok.injEq] at h
      exact ⟨acc, line, col, h.symm⟩
    | cons c cs =>
      rw [show tokAux (fuel + 1) (c :: cs) line col acc =
        tokStep (tokAux fuel) c cs line col acc from rfl] at h
      unfold tokStep at h
      dsimp only at h
      by_cases h1 : c = ' ' ∨ c = '\t' ∨ c = '\r'
      · rw [if_pos h1] at h
        exact ihn cs _ _ _ _ h
      · rw [if_neg h1] at h
        by_cases h2 : c = '\n'
        · rw [if_pos h2] at h
          exact ihn cs _ _ _ _ h
        · rw [if_neg h2] at h
          by_cases h3 : c = '/' ∧ cs.head? = some '/'
          · rw [if_pos h3] at h
            exact ihn _ _ _ _ _ h
          · rw [if_neg h3] at h
            by_cases h4 : isIdentStart c = true
            · rw [if_pos h4] at h
              by_cases h5 : 4096 ≤ acc.length
              · rw [if_pos h5] at h
                simp at h
              · rw [if_neg h5] at h
                exact ihn _ _ _ _ _ h
            · rw [if_neg h4] at h
              by_cases h6 : c.isDigit = true
              · rw [if_pos h6] at h
                cases hd : (List.dropWhile Char.isDigit cs).head? with
                | some d =>
                  rw [hd] at h
                  dsimp only at h
                  by_cases h7 : d.isAlpha = true ∨ d = '_'
                  · rw [if_pos h7] at h
                    simp at h
                  · rw [if_neg h7] at h
                    by_cases h8 : 4096 ≤ acc.length
                    · rw [if_pos h8] at h
                      simp at h
                    · rw [if_neg h8] at h
                      exact ihn _ _ _ _ _ h
                | none =>
                  rw [hd] at h
                  dsimp only at h
                  by_cases h8 : 4096 ≤ acc.length
                  · rw [if_pos h8] at h
                    simp at h
                  · rw [if_neg h8] at h
                    exact ihn _ _ _ _ _ h
              · rw [if_neg h6] at h
                cases hty : (if c = '=' then some TOK_ASSIGN
                    else if c = '+' then some TOK_PLUS
                    else if c = '-' then some TOK_MINUS
                    else if c = '*' then some TOK_STAR
                    else if c = '/' then some TOK_SLASH
                    else if c = '(' then some TOK_LPAREN
                    else if c = ')' then some TOK_RPAREN
                    else if c = ';' then some TOK_SEMICOLON
                    else none) with
                | some ty =>
                  rw [hty] at h
                  dsimp only at h
                  by_cases h8 : 4096 ≤ acc.length
                  · rw [if_pos h8] at h
                    simp at h
                  · rw [if_neg h8] at h
                    exact ihn cs _ _ _ _ h
                | none =>
                  rw [hty] at h
                  dsimp only at h
                  simp at h

/-- A successful tokenization yields a nonempty sequence whose final
token is the end-of-input token. -/
theorem tokenise_endsWithEOF (src : List Char) (ts : List Token)
    (h : tokenise src = .ok ts) : EndsWithEOF ts := by
  unfold tokenise at h
  obtain ⟨pre, l2, c2, rfl⟩ : ∃ pre l2 c2,
      ts = pre ++ [⟨TOK_EOF, "EOF", 0, l2, c2⟩] := by
    cases htk : tokAux src.length src 1 1 [] with
    | none =>
      rw [htk] at h
      cases h
    | some r =>
      rw [htk] at h
      subst h
      exact tokAux_ok_shape src.length src 1 1 [] ts htk
  constructor
  · simp
  · show (tokAt (pre ++ [⟨TOK_EOF, "EOF", 0, l2, c2⟩])
      (lastIdx (pre ++ [⟨TOK_EOF, "EOF", 0, l2, c2⟩]))).type = TOK_EOF
    have hlast : lastIdx (pre ++ [⟨TOK_EOF, "EOF", 0, l2, c2⟩]) = pre.length := by
      simp [lastIdx]
    rw [hlast]
    unfold tokAt
    rw [List.getD_eq_getElem?_getD, List.getElem?_append_right le_rfl]
    simp

/-- For any end-of-input-terminated token sequence, `runTokens` (which
uses fuel `progFuel`) completes. -/
theorem runTokens_isSome (ts : List Token) (he : EndsWithEOF ts) :
    (runTokens ts).isSome := by
  unfold runTokens
  refine (parse_sufficiency (progFuel ts)).2.2.2.2.2.2.2.2.2 (initState ts) he
    (Nat.zero_le _) ?_
  show 8 + 4 * (lastIdx ts - 0) ≤ progFuel ts
  unfold progFuel lastIdx
  omega

/-- A digit run immediately followed by a letter or underscore makes the
tokenizer report a lexical error at once and abort. -/
theorem tokAux_digit_letter_error (fuel : Nat) (c : Char) (cs : List Char)
    (line col : Nat) (acc : List Token) (d : Char) (hc : c.isDigit = true)
    (hd : (cs.dropWhile Char.isDigit).head? = some d)
    (hda : d.isAlpha = true ∨ d = '_') :
    tokAux (fuel + 1) (c :: cs) line col acc =
      some (.error (.lexBadCharAfterInt line col d)) := by
  show tokStep (tokAux fuel) c cs line col acc =
    some (.error (.lexBadCharAfterInt line col d))
  unfold tokStep
  dsimp only
  rw [if_neg (by rintro (rfl | rfl | rfl) <;> exact absurd hc (by decide))]
  rw [if_neg (by rintro rfl; exact absurd hc (by decide))]
  rw [if_neg (by rintro ⟨rfl, -⟩; exact absurd hc (by decide))]
  rw [if_neg (by simp [isIdentStart_eq_false_of_isDigit c hc])]
  rw [if_pos hc, hd]
  dsimp only
  rw [if_pos hda]

/-- The driver on a source that tokenizes successfully. -/
theorem interpretChars_ok (src : List Char) (ts : List Token)
    (h : tokenise src = .ok ts) :
    interpretChars src = (runTokens ts).map
      (fun s => ⟨if s.hadError then 1 else 0, s.output, s.diags⟩) := by
  unfold interpretChars
  rw [h]

/-- The driver on a source with a lexical error: exit 1, no output, only
the lexical diagnostic. -/
theorem interpretChars_error (src : List Char) (d : Diag)
    (h : tokenise src = .error d) : interpretChars src = some ⟨1, [], [d]⟩ := by
  unfold interpretChars
  rw [h]

/-- A failed name lookup means the name is absent. -/
theorem SpecModel.lookup_none_not_mem (env : List Variable) (x : String)
    (h : SpecModel.lookup env x = none) : x ∉ env.map (fun v => v.name) := by
  induction env with
  | nil => simp
  | cons v rest ih =>
    simp only [SpecModel.lookup] at h
    split at h
    · cases h
    · rename_i hne
      simp only [List.map_cons, List.mem_cons]
      rintro (rfl | hmem)
      · exact hne rfl
      · exact ih h hmem

/-- Specification-side execution preserves distinctness of declared
names: each declaration binds a fresh name. -/
theorem SpecModel.exec_nodup (prog : List SpecModel.Stmt) :
    ∀ (env env' : List Variable) (outs : List Int),
    SpecModel.exec env prog = some (env', outs) →
    (env.map (fun v => v.name)).Nodup → (env'.map (fun v => v.name)).Nodup := by
  induction prog with
  | nil =>
    intro env env' outs h hn
    simp only [SpecModel.exec, Option.some.injEq, Prod.mk.injEq] at h
    obtain ⟨rfl, -⟩ := h
    exact hn
  | cons st rest ih =>
    intro env env' outs h hn
    cases st with
    | decl x e =>
      simp only [SpecModel.exec] at h
      split at h
      · cases h
      · rename_i hlk
        split at h
        · cases h
        · rename_i v hv
          refine ih _ _ _ h ?_
          rw [List.map_append]
          simp only [List.map_cons, List.map_nil]
          rw [List.nodup_append]
          refine ⟨hn, List.nodup_singleton _, ?_⟩
          intro a ha hb
          simp only [List.mem_singleton] at hb
          subst hb
          exact SpecModel.lookup_none_not_mem env _ hlk ha
    | print e =>
      simp only [SpecModel.exec] at h
      split at h
      · cases h
      · split at h
        · cases h
        · rename_i p hp
          simp only [Option.some.injEq, Prod.mk.injEq] at h
          obtain ⟨rfl, -⟩ := h
          exact ih _ _ _ hp hn

/-- The character data of a string concatenation. -/
theorem string_data_append (a b : String) : (a ++ b).data = a.data ++ b.data := rfl

/-- Any string of the claimed diagnostic shape contains a comma (from
its `, col ` fragment). -/
theorem comma_mem_of_matchesDiagForm (s : String) (h : matchesDiagForm s) :
    ',' ∈ s.data := by
  obtain ⟨cat, L, C, msg, -, rfl⟩ := h
  simp only [string_data_append, List.mem_append]
  left
  left
  left
  right
  decide

/-- C1: for every program that tokenizes successfully and parses with no
syntax, semantic, or runtime error, the values written to standard output
are exactly, in source order, the values of each print statement's
expression under the specification grammar (with `*`, `/` binding
tighter than `+`, `-`, all left-associative) and standard evaluation,
and the symbol table ends up holding exactly one entry per declaration,
with distinct names; in particular `print(1 + 2 * 3 - 4 / 2);` prints
exactly the single value 5 and exits with status 0. -/
theorem claim_C1 :
    (∀ (src : String) (ts : List Token) (s' : PState),
      tokenise src.data = .ok ts → runTokens ts = some s' → s'.hadError = false →
      ∃ prog outs,
        SpecModel.parseProgram ts (progFuel ts) = some prog ∧
        SpecModel.exec [] prog = some (s'.syms, outs) ∧
        s'.output = outs ∧
        (s'.syms.map (fun v => v.name)).Nodup ∧
        interpret src = some ⟨0, outs, []⟩) ∧
    interpret "print(1 + 2 * 3 - 4 / 2);" = some ⟨0, [5], []⟩ := by
  constructor
  · intro src ts s' htok hrun hE
    have hrun' : parse_program (progFuel ts) (initState ts) = some s' := hrun
    obtain ⟨prog, outs, hps, hex, hout⟩ :=
      (parse_correspondence (progFuel ts)).2.2.2.2.2.2.2.2.2 (initState ts) s' hrun' hE rfl
    have hinv : StmtInv (initState ts) s' :=
      ((parse_invariants (progFuel ts)).2.2.2.2.2.2.2.2.2 _ _ hrun').1
    have hdiags : s'.diags = [] := (hinv.clean hE).2
    have hout' : s'.output = outs := by simpa [initState] using hout
    refine ⟨prog, outs, hps, hex, hout', ?_, ?_⟩
    · exact SpecModel.exec_nodup prog [] s'.syms outs hex (by simp)
    · unfold interpret
      rw [interpretChars_ok src.data ts htok, hrun]
      simp [hE, hdiags, hout']
  · rfl

/-- Witness for C1 at the concrete program `print(7);`. -/
theorem claim_C1_witness :
    ∃ prog outs,
      SpecModel.parseProgram egTokens (progFuel egTokens) = some prog ∧
      SpecModel.exec [] prog = some (egFinal.syms, outs) ∧
      egFinal.output = outs ∧
      (egFinal.syms.map (fun v => v.name)).Nodup ∧
      interpret "print(7);" = some ⟨0, outs, []⟩ :=
  claim_C1.1 "print(7);" egTokens egFinal rfl rfl rfl

/-- C2: once the sticky error flag is set, no later statement writes to
standard output or to the symbol table, while statement parsing still
runs on to the end-of-input token. -/
theorem claim_C2 :
    (∀ fuel s s', parse_stmt fuel s = some s' → s.hadError = true →
      s'.output = s.output ∧ s'.syms = s.syms ∧ s'.hadError = true) ∧
    (∀ fuel s s', parse_stmt_loop fuel s = some s' → s.hadError = true →
      s'.output = s.output ∧ s'.syms = s.syms ∧ s'.hadError = true) ∧
    (∀ ts s, EndsWithEOF ts → s.toks = ts → s.pos ≤ lastIdx ts → s.hadError = true →
      ∀ fuel, 7 + 4 * (lastIdx ts - s.pos) ≤ fuel →
      ∃ s', parse_stmt_loop fuel s = some s' ∧ (current_token s').type = TOK_EOF ∧
        s'.output = s.output ∧ s'.syms = s.syms) := by
  refine ⟨?_, ?_, ?_⟩
  · intro fuel s s' h hErr
    obtain ⟨inv, -⟩ := (parse_invariants fuel).2.2.2.2.2.2.2.1 _ _ h
    obtain ⟨hsy, hout⟩ := inv.suppress hErr
    exact ⟨hout, hsy, inv.sticky hErr⟩
  · intro fuel s s' h hErr
    obtain ⟨inv, -⟩ := (parse_invariants fuel).2.2.2.2.2.2.2.2.1 _ _ h
    obtain ⟨hsy, hout⟩ := inv.suppress hErr
    exact ⟨hout, hsy, inv.sticky hErr⟩
  · intro ts s he hts hp hErr fuel hf
    have hsome := (parse_sufficiency fuel).2.2.2.2.2.2.2.2.1 s
      (by rw [hts]; exact he) (by rw [hts]; exact hp) (by rw [hts]; exact hf)
    obtain ⟨s', heq⟩ := Option.isSome_iff_exists.mp hsome
    obtain ⟨inv, heof⟩ := (parse_invariants fuel).2.2.2.2.2.2.2.2.1 _ _ heq
    obtain ⟨hsy, hout⟩ := inv.suppress hErr
    exact ⟨s', heq, heof, hout, hsy⟩

/-- Witness for C2: a run started with the error flag set still reaches
end-of-input and produces no output and no symbol-table entries. -/
theorem claim_C2_witness :
    ∃ s', parse_stmt_loop 32 ⟨egTokens, 0, true, [], [], []⟩ = some s' ∧
      (current_token s').type = TOK_EOF ∧
      s'.output = (⟨egTokens, 0, true, [], [], []⟩ : PState).output ∧
      s'.syms = (⟨egTokens, 0, true, [], [], []⟩ : PState).syms :=
  claim_C2.2.2 egTokens ⟨egTokens, 0, true, [], [], []⟩ ⟨by decide, by decide⟩ rfl
    (by decide) rfl 32 (by decide)

/-- C3: the exit status is 0 exactly when the command-line argument and
file were available, tokenization succeeded, and the whole parse ran
with the error flag never set; it is 1 in every other case. -/
theorem claim_C3 : ∀ (arg : Bool) (file : Option String) (r : RunResult),
    mainRun arg file = some r →
    (r.exitCode = 0 ↔ arg = true ∧ ∃ src ts s', file = some src ∧
      tokenise src.data = .ok ts ∧ runTokens ts = some s' ∧ s'.hadError = false) := by
  intro arg file r h
  unfold mainRun at h
  split at h
  · rename_i harg
    split at h
    · rename_i src
      unfold interpret interpretChars at h
      split at h
      · rename_i d hd
        simp only [Option.some.injEq] at h
        subst h
        simp only [show (1 : Nat) ≠ 0 by omega, false_iff]
        rintro ⟨-, src', ts, s', hsome, htok, -, -⟩
        rw [Option.some.injEq] at hsome
        subst hsome
        rw [hd] at htok
        cases htok
      · rename_i ts hts
        cases hrun : runTokens ts with
        | none =>
          rw [hrun] at h
          cases h
        | some s' =>
          rw [hrun] at h
          simp only [Option.map_some', Option.some.injEq] at h
          subst h
          constructor
          · intro h0
            refine ⟨harg, src, ts, s', rfl, hts, hrun, ?_⟩
            by_cases hEE : s'.hadError = true
            · rw [if_pos hEE] at h0
              cases h0
            · simpa using hEE
          · rintro ⟨-, src', ts', s'', hsome, htok', hrun', hE''⟩
            rw [Option.some.injEq] at hsome
            subst hsome
            rw [hts] at htok'
            rw [Except.ok.injEq] at htok'
            subst htok'
            rw [hrun] at hrun'
            rw [Option.some.injEq] at hrun'
            subst hrun'
            simp [hE'']
    · simp only [Option.some.injEq] at h
      subst h
      simp only [show (1 : Nat) ≠ 0 by omega, false_iff]
      rintro ⟨-, src', ts, s', hsome, -⟩
      cases hsome
  · rename_i harg
    simp only [Option.some.injEq] at h
    subst h
    simp only [show (1 : Nat) ≠ 0 by omega, false_iff]
    rintro ⟨harg', -⟩
    exact harg (by rw [harg'])

/-- Witness for C3 at a concrete successful run. -/
theorem claim_C3_witness :
    (RunResult.mk 0 [7] []).exitCode = 0 ↔ true = true ∧
      ∃ src ts s', some "print(7);" = some src ∧
        tokenise src.data = .ok ts ∧ runTokens ts = some s' ∧ s'.hadError = false :=
  claim_C3 true (some "print(7);") ⟨0, [7], []⟩ rfl

/-- C4: a division whose right operand evaluates to 0 makes the term
loop report a runtime error at the `/` operator's line and column, set
the sticky error flag, continue with 0 as the result of that operation,
and keep evaluating rather than aborting; the whole pipeline on
`print(4 / 0);` finishes with the diagnostic recorded and exit status 1. -/
theorem claim_C4 :
    (∀ fuel left s s2, (current_token s).type = TOK_SLASH →
      parse_factor fuel ((advance s).2) = some (0, s2) →
      parse_term_loop (fuel + 1) left s =
        parse_term_loop fuel 0
          (emit (.runtimeDivZero (current_token s).line (current_token s).col) s2) ∧
      (emit (.runtimeDivZero (current_token s).line (current_token s).col) s2).hadError =
        true ∧
      (emit (.runtimeDivZero (current_token s).line (current_token s).col) s2).diags =
        s2.diags ++ [.runtimeDivZero (current_token s).line (current_token s).col]) ∧
    interpret "print(4 / 0);" = some ⟨1, [], [.runtimeDivZero 1 9]⟩ := by
  constructor
  · intro fuel left s s2 hSl hfac
    refine ⟨?_, rfl, rfl⟩
    simp only [parse_term_loop]
    rw [if_pos (Or.inr hSl)]
    rw [advance_fst]
    simp only [hfac]
    rw [if_neg (by rw [hSl]; simp)]
    simp
  · rfl

/-- Witness for C4: the `/` at index 3 of the `print(4 / 0);` token
sequence, with the factor `0` following it. -/
theorem claim_C4_witness :
    parse_term_loop 11 4 ⟨egDivTokens, 3, false, [], [], []⟩ =
      parse_term_loop 10 0
        (emit (.runtimeDivZero 1 9) ⟨egDivTokens, 5, false, [], [], []⟩) ∧
    (emit (.runtimeDivZero 1 9) ⟨egDivTokens, 5, false, [], [], []⟩).hadError = true ∧
    (emit (.runtimeDivZero 1 9) ⟨egDivTokens, 5, false, [], [], []⟩).diags =
      (⟨egDivTokens, 5, false, [], [], []⟩ : PState).diags ++ [.runtimeDivZero 1 9] :=
  claim_C4.1 10 4 ⟨egDivTokens, 3, false, [], [], []⟩
    ⟨egDivTokens, 5, false, [], [], []⟩ rfl rfl

/-- C5: an identifier factor whose name is not in the symbol table
reports a semantic error at the identifier's line and column, evaluates
to 0, sets the sticky flag, and parsing continues past the consumed
identifier token; the whole pipeline on `print(x);` finishes with the
diagnostic recorded and exit status 1. -/
theorem claim_C5 :
    (∀ fuel s, (current_token s).type = TOK_IDENTIFIER →
      sym_lookup s.syms (current_token s).text = none →
      parse_factor (fuel + 1) s = some (0,
        emit (.semanticUndeclared (current_token s).line (current_token s).col
          (current_token s).text) ((advance s).2)) ∧
      (emit (.semanticUndeclared (current_token s).line (current_token s).col
        (current_token s).text) ((advance s).2)).hadError = true ∧
      (emit (.semanticUndeclared (current_token s).line (current_token s).col
        (current_token s).text) ((advance s).2)).diags =
        s.diags ++ [.semanticUndeclared (current_token s).line (current_token s).col
          (current_token s).text] ∧
      ((advance s).2).pos = s.pos + 1) ∧
    interpret "print(x);" = some ⟨1, [], [.semanticUndeclared 1 7 "x"]⟩ := by
  constructor
  · intro fuel s hID hlook
    have hne : (current_token s).type ≠ TOK_EOF := by rw [hID]; simp
    refine ⟨?_, rfl, ?_, advance_pos_of_ne s hne⟩
    · simp only [parse_factor]
      rw [if_neg (by rw [hID]; simp), if_pos hID]
      rw [show ((advance s).2).syms = s.syms from advance_syms s, hlook]
    · show ((advance s).2).diags ++ _ = s.diags ++ _
      rw [advance_diags]
  · rfl

/-- Witness for C5: the undeclared identifier `x` in `print(x);`. -/
theorem claim_C5_witness :
    parse_factor 11 ⟨egVarTokens, 2, false, [], [], []⟩ = some (0,
      emit (.semanticUndeclared 1 7 "x")
        ((advance ⟨egVarTokens, 2, false, [], [], []⟩).2)) ∧
    (emit (.semanticUndeclared 1 7 "x")
      ((advance ⟨egVarTokens, 2, false, [], [], []⟩).2)).hadError = true ∧
    (emit (.semanticUndeclared 1 7 "x")
      ((advance ⟨egVarTokens, 2, false, [], [], []⟩).2)).diags =
      (⟨egVarTokens, 2, false, [], [], []⟩ : PState).diags ++
        [.semanticUndeclared 1 7 "x"] ∧
    ((advance ⟨egVarTokens, 2, false, [], [], []⟩).2).pos =
      (⟨egVarTokens, 2, false, [], [], []⟩ : PState).pos + 1 :=
  claim_C5.1 10 ⟨egVarTokens, 2, false, [], [], []⟩ rfl rfl

/-- C6 counterexample: in `int a = 1;` / `print(b);` / `int a = 2;` the
name `a` is re-declared on line 3, yet the run's only diagnostic is the
undeclared-variable error from line 2 — no already-declared semantic
error is emitted, because the sticky flag set on line 2 suppresses the
third declaration's semantic action entirely. -/
theorem claim_C6_counterexample :
    interpret "int a = 1;\nprint(b);\nint a = 2;" =
      some ⟨1, [], [.semanticUndeclared 2 7 "b"]⟩ ∧
    (∀ L x, Diag.semanticRedeclared L x ≠ Diag.semanticUndeclared 2 7 "b") := by
  refine ⟨rfl, ?_⟩
  intro L x h
  cases h

/-- C6 as amended: provided no error has occurred earlier in the run, a
declaration of an already-declared name emits the already-declared
semantic error at the re-declaring declaration's line, sets the sticky
flag, and leaves the symbol table (hence the original value) unchanged;
when the sticky flag is already set, the declaration's semantic action
(including its redeclaration check and diagnostic) is skipped. -/
theorem claim_C6 :
    (∀ (id : Token) (value : Int) (s : PState), s.hadError = false →
      (sym_lookup s.syms id.text).isSome →
      decl_action id value s =
        { s with diags := s.diags ++ [.semanticRedeclared id.line id.text],
                 hadError := true } ∧
      (decl_action id value s).syms = s.syms) ∧
    (∀ (id : Token) (value : Int) (s : PState), s.hadError = true →
      decl_action id value s = s) := by
  constructor
  · intro id value s hE hL
    refine ⟨decl_action_eq_of_redeclared id value s hE hL, ?_⟩
    rw [decl_action_eq_of_redeclared id value s hE hL]
  · intro id value s hE
    unfold decl_action
    rw [if_neg (by rw [hE]; simp)]

/-- Witness for the amended C6: re-declaring `a` (line 3) against a
table already holding `a`. -/
theorem claim_C6_witness :
    decl_action ⟨TOK_IDENTIFIER, "a", 0, 3, 5⟩ 2
        ⟨[], 0, false, [⟨"a", 1, true⟩], [], []⟩ =
      { (⟨[], 0, false, [⟨"a", 1, true⟩], [], []⟩ : PState) with
          diags := ([] : List Diag) ++ [.semanticRedeclared 3 "a"],
          hadError := true } ∧
    (decl_action ⟨TOK_IDENTIFIER, "a", 0, 3, 5⟩ 2
      ⟨[], 0, false, [⟨"a", 1, true⟩], [], []⟩).syms = [⟨"a", 1, true⟩] :=
  claim_C6.1 ⟨TOK_IDENTIFIER, "a", 0, 3, 5⟩ 2
    ⟨[], 0, false, [⟨"a", 1, true⟩], [], []⟩ rfl (by decide)

/-- C7: an integer literal immediately followed by a letter or an
underscore is a lexical error: the scan aborts at once with that single
diagnostic, a tokenization failure produces no tokens, executes no
statements, writes no output, and exits with status 1; `12abc` fails
exactly this way at line 1, column 1. -/
theorem claim_C7 :
    (∀ (fuel : Nat) (c : Char) (cs : List Char) (line col : Nat)
      (acc : List Token) (d : Char), c.isDigit = true →
      (cs.dropWhile Char.isDigit).head? = some d → d.isAlpha = true ∨ d = '_' →
      tokAux (fuel + 1) (c :: cs) line col acc =
        some (.error (.lexBadCharAfterInt line col d))) ∧
    (∀ (src : List Char) (d : Diag), tokenise src = .error d →
      interpretChars src = some ⟨1, [], [d]⟩) ∧
    interpret "12abc" = some ⟨1, [], [.lexBadCharAfterInt 1 1 'a']⟩ := by
  refine ⟨?_, ?_, rfl⟩
  · intro fuel c cs line col acc d hc hd hda
    exact tokAux_digit_letter_error fuel c cs line col acc d hc hd hda
  · intro src d h
    exact interpretChars_error src d h

/-- Witness for C7: the scan of `12abc` from its first character. -/
theorem claim_C7_witness :
    tokAux 5 ('1' :: ['2', 'a', 'b', 'c']) 1 1 [] =
      some (.error (.lexBadCharAfterInt 1 1 'a')) :=
  claim_C7.1 4 '1' ['2', 'a', 'b', 'c'] 1 1 [] 'a' (by decide) (by decide)
    (Or.inl (by decide))

/-- C8 counterexample: the run `int a = 1;` / `int a = 2;` emits the
already-declared semantic diagnostic, whose text
`Semantic Error [line 2]: variable 'a' is already declared` carries no
column and therefore does not have the claimed
`<Category> Error [line L, col C]: <message>` shape. -/
theorem claim_C8_counterexample :
    interpret "int a = 1;\nint a = 2;" =
      some ⟨1, [], [.semanticRedeclared 2 "a"]⟩ ∧
    Diag.category (.semanticRedeclared 2 "a") = some "Semantic" ∧
    ¬ matchesDiagForm (Diag.render (.semanticRedeclared 2 "a")) := by
  refine ⟨rfl, rfl, ?_⟩
  intro hm
  have hcomma := comma_mem_of_matchesDiagForm _ hm
  revert hcomma
  decide

/-- C8 as amended: every categorized (lexical, syntax, semantic,
runtime) diagnostic is one line of the exact form
`<Category> Error [line L, col C]: <message>` — except the
already-declared semantic error, whose line has the form
`Semantic Error [line L]: <message>` with no column. -/
theorem claim_C8 : ∀ (d : Diag) (c : String), Diag.category d = some c →
    matchesDiagForm (Diag.render d) ∨
    ∃ L name, d = .semanticRedeclared L name ∧
      Diag.render d = "Semantic Error [line " ++ toString L ++ "]: variable '" ++
        name ++ "' is already declared" := by
  intro d c hc
  cases d with
  | lexBadCharAfterInt line col ch =>
    exact Or.inl ⟨"Lexical", line, col,
      "invalid token '" ++ ch.toString ++ "' after integer literal",
      Or.inl rfl, rfl⟩
  | lexUnexpectedChar line col ch =>
    exact Or.inl ⟨"Lexical", line, col,
      "unexpected character '" ++ ch.toString ++ "'", Or.inl rfl, rfl⟩
  | tooManyTokens => cases hc
  | semanticRedeclared line name => exact Or.inr ⟨line, name, rfl, rfl⟩
  | tooManyVariables => cases hc
  | synExpected line col expected found text =>
    exact Or.inl ⟨"Syntax", line, col,
      "expected " ++ token_type_name expected ++ " but found " ++
        token_type_name found ++ " ('" ++ text ++ "')",
      Or.inr (Or.inl rfl), rfl⟩
  | semanticUndeclared line col name =>
    exact Or.inl ⟨"Semantic", line, col, "undeclared variable '" ++ name ++ "'",
      Or.inr (Or.inr (Or.inl rfl)), rfl⟩
  | runtimeDivZero line col =>
    exact Or.inl ⟨"Runtime", line, col, "division by zero",
      Or.inr (Or.inr (Or.inr rfl)), rfl⟩
  | synExpectedExpr line col found text =>
    exact Or.inl ⟨"Syntax", line, col,
      "expected expression but found " ++ token_type_name found ++
        " ('" ++ text ++ "')", Or.inr (Or.inl rfl), rfl⟩
  | synBadStmtStart line col found text =>
    exact Or.inl ⟨"Syntax", line, col,
      "expected 'int' or 'print' at start of statement but found " ++
        token_type_name found ++ " ('" ++ text ++ "')",
      Or.inr (Or.inl rfl), rfl⟩

/-- Witness for the amended C8 at the division-by-zero diagnostic. -/
theorem claim_C8_witness :
    matchesDiagForm (Diag.render (.runtimeDivZero 1 9)) ∨
    ∃ L name, (Diag.runtimeDivZero 1 9 : Diag) = .semanticRedeclared L name ∧
      Diag.render (.runtimeDivZero 1 9) = "Semantic Error [line " ++ toString L ++
        "]: variable '" ++ name ++ "' is already declared" :=
  claim_C8 (.runtimeDivZero 1 9) "Runtime" rfl

/-- C9: for every token sequence ending in the end-of-input token,
`parse_program` terminates (fuel `8 + 4·lastIdx` and beyond always
yields a result); every `parse_stmt` call made while the current token
is not end-of-input consumes at least one token; the statement loop
stops exactly when the current token is end-of-input; and after the
loop, `parse_program` expects the end-of-input token once, which leaves
the state unchanged. -/
theorem claim_C9 :
    (∀ ts s fuel, EndsWithEOF ts → s.toks = ts → s.pos ≤ lastIdx ts →
      8 + 4 * (lastIdx ts - s.pos) ≤ fuel → (parse_program fuel s).isSome) ∧
    (∀ fuel s s', (current_token s).type ≠ TOK_EOF → parse_stmt fuel s = some s' →
      s.pos < s'.pos) ∧
    (∀ fuel s s', parse_stmt_loop fuel s = some s' →
      (current_token s').type = TOK_EOF) ∧
    (∀ fuel s s', parse_program (fuel + 1) s = some s' →
      ∃ s1, parse_stmt_loop fuel s = some s1 ∧ (current_token s1).type = TOK_EOF ∧
        s' = (expect TOK_EOF s1).2 ∧ s' = s1) := by
  refine ⟨?_, ?_, ?_, ?_⟩
  · intro ts s fuel he hts hp hf
    exact (parse_sufficiency fuel).2.2.2.2.2.2.2.2.2 s (by rw [hts]; exact he)
      (by rw [hts]; exact hp) (by rw [hts]; exact hf)
  · intro fuel s s' hne h
    exact ((parse_invariants fuel).2.2.2.2.2.2.2.1 _ _ h).2 hne
  · intro fuel s s' h
    exact ((parse_invariants fuel).2.2.2.2.2.2.2.2.1 _ _ h).2
  · intro fuel s s' h
    simp only [parse_program] at h
    split at h
    · cases h
    · rename_i s1 heq
      simp only [Option.some.injEq] at h
      have heof := ((parse_invariants fuel).2.2.2.2.2.2.2.2.1 _ _ heq).2
      refine ⟨s1, heq, heof, h.symm, ?_⟩
      rw [← h, expect_of_match _ _ heof, advance_of_eof _ heof]

/-- Witness for C9: termination on the `print(7);` token sequence. -/
theorem claim_C9_witness : (parse_program 32 (initState egTokens)).isSome :=
  claim_C9.1 egTokens (initState egTokens) 32 ⟨by decide, by decide⟩ rfl
    (by decide) (by decide)

/-- C10: `advance` refuses to move when the current token is
end-of-input (the state is returned unchanged); the tokenizer always
ends its sequence with an end-of-input token; and a whole parse started
inside the array ends with the cursor still at or before the final
index, so `current_token` always reads inside the tokenized sequence. -/
theorem claim_C10 :
    (∀ s, (current_token s).type = TOK_EOF → (advance s).2 = s) ∧
    (∀ src ts, tokenise src = .ok ts → EndsWithEOF ts) ∧
    (∀ fuel s s', EndsWithEOF s.toks → s.pos ≤ lastIdx s.toks →
      parse_program fuel s = some s' →
      s'.pos ≤ lastIdx s.toks ∧ s'.pos < s.toks.length) := by
  refine ⟨?_, ?_, ?_⟩
  · intro s h
    exact advance_of_eof s h
  · intro src ts h
    exact tokenise_endsWithEOF src ts h
  · intro fuel s s' he hp h
    have inv := ((parse_invariants fuel).2.2.2.2.2.2.2.2.2 _ _ h).1
    have hb := inv.bound he hp
    refine ⟨hb, ?_⟩
    have hne : s.toks ≠ [] := he.1
    have hlen : 0 < s.toks.length := List.length_pos.mpr hne
    unfold lastIdx at hb
    omega

/-- Witness for C10: the pipeline on the `print(7);` token sequence ends
with the cursor inside the array. -/
theorem claim_C10_witness :
    egFinal.pos ≤ lastIdx (initState egTokens).toks ∧
      egFinal.pos < (initState egTokens).toks.length :=
  claim_C10.2.2 32 (initState egTokens) egFinal ⟨by decide, by decide⟩
    (by decide) rfl
